import Mathlib

/-!
Shallow embedding of the yahtml conversion engine (src/unnamed/part_001) and
verification of its specification claims.

The JavaScript source is embedded over an explicit `Node` type mirroring the
plain-data trees the converter accepts (null, string, number, boolean, array,
object).  JavaScript exceptions are modelled with `Except Err`.  The mutually
recursive renderer `processElement` is embedded as a fuel-indexed step
interpreter `run` over a small `Task` type; `runStep` is the single step of
the interpreter and carries the line-by-line translation of the source.
-/

namespace Yahtml

/-- JavaScript whitespace (the ASCII part relevant here): matches the uses of
`\s`, `.trim()` in the source. -/
def isSpace (c : Char) : Bool :=
  c = ' ' || c = '\t' || c = '\n' || c = '\r'

/-- Characters allowed in a tag / id / class name: `[a-zA-Z0-9-]`
(source regexes at lines 438, 446, 452). -/
def isTagChar (c : Char) : Bool :=
  c.isAlphanum || c = '-'

/-- Characters allowed in an attribute name: `[a-zA-Z-]` (source line 390). -/
def isNameChar (c : Char) : Bool :=
  c.isAlpha || c = '-'

/-- `String.prototype.trim()` on a character list. -/
def trimChars (l : List Char) : List Char :=
  ((l.dropWhile isSpace).reverse.dropWhile isSpace).reverse

/-- First index of an occurrence of `pat` (JavaScript `String.prototype.indexOf`). -/
def findSub (pat : List Char) : List Char → Option Nat
  | [] => if pat.isPrefixOf ([] : List Char) then some 0 else none
  | c :: r =>
    if pat.isPrefixOf (c :: r) then some 0
    else (findSub pat r).map (· + 1)

/-- `value.split(' ')` (source line 208): split at every single space character. -/
def splitSpace : List Char → List String
  | [] => [""]
  | c :: r =>
    if c = ' ' then "" :: splitSpace r
    else
      match splitSpace r with
      | [] => [String.singleton c]
      | t :: ts => (String.singleton c ++ t) :: ts

/-- The expansion of one character under `escapeHtml` (source lines 480-490):
`&`→`&amp;`, `<`→`&lt;`, `>`→`&gt;`, `"`→`&quot;`, `'`→`&#39;`. -/
def escCharHtml (c : Char) : List Char :=
  if c = '&' then "&amp;".toList
  else if c = '<' then "&lt;".toList
  else if c = '>' then "&gt;".toList
  else if c = '"' then "&quot;".toList
  else if c = '\'' then "&#39;".toList
  else [c]

/-- The expansion of one character under `escapeAttribute` (source lines 512-521):
same as `escCharHtml` but the apostrophe is left alone. -/
def escCharAttr (c : Char) : List Char :=
  if c = '&' then "&amp;".toList
  else if c = '<' then "&lt;".toList
  else if c = '>' then "&gt;".toList
  else if c = '"' then "&quot;".toList
  else [c]

def escListWith (f : Char → List Char) : List Char → List Char
  | [] => []
  | c :: r => f c ++ escListWith f r

/-- `escapeHtml` (source lines 480-490): single pass replacement of
`[&<>"']` by the map above. -/
def escapeHtml (s : String) : String :=
  ⟨escListWith escCharHtml s.toList⟩

/-- `escapeAttribute` (source lines 512-521). -/
def escapeAttribute (s : String) : String :=
  ⟨escListWith escCharAttr s.toList⟩

/-- `SELF_CLOSING_TAGS` (source line 10). -/
def SELF_CLOSING_TAGS : List String :=
  ["br", "hr", "img", "input", "meta", "area", "base", "col", "embed", "link",
   "param", "source", "track", "wbr"]

/-- `rawContentTags` (source lines 304, 314). -/
def rawContentTags : List String := ["script", "style"]

/-! ## The element-key parser (source `parseElementKey`, lines 360-459) -/

/-- An attribute value: `none` models the JavaScript boolean value `true`
(bare attribute, source line 427), `some v` a string value. -/
abbrev AttrVal := Option String

structure ParsedElement where
  tag : String
  id : String
  classes : List String
  attributes : List (String × AttrVal)
deriving Repr, DecidableEq

/-- State of the attribute tokenizer (the `while` loop at source lines
382-429): before an attribute, inside a name, just past `=`, inside a
double-quoted / single-quoted / unquoted value. -/
inductive AttrState where
  | start
  | inName (n : String)
  | afterEq (n : String)
  | dq (n v : String)
  | sq (n v : String)
  | unq (n v : String)

/-- The attribute tokenizer (source lines 382-429), as a character-at-a-time
state machine.  Faithful points: names match `[a-zA-Z-]`; an empty name stops
tokenization; a value is double-quoted, single-quoted, or unquoted read until
whitespace, stopping at a `:` only when it is the final character; a name not
followed by `=` is a boolean attribute; unterminated quotes run to the end. -/
def scanAttrs (st : AttrState) : List Char → List (String × AttrVal)
  | [] =>
    match st with
    | .start => []
    | .inName n => [(n, none)]
    | .afterEq n => [(n, some "")]
    | .dq n v => [(n, some v)]
    | .sq n v => [(n, some v)]
    | .unq n v => [(n, some v)]
  | c :: rest =>
    match st with
    | .start =>
      if isSpace c then scanAttrs .start rest
      else if isNameChar c then scanAttrs (.inName (String.singleton c)) rest
      else []
    | .inName n =>
      if isNameChar c then scanAttrs (.inName (n.push c)) rest
      else if c = '=' then scanAttrs (.afterEq n) rest
      else if isSpace c then (n, none) :: scanAttrs .start rest
      else [(n, none)]
    | .afterEq n =>
      if c = '"' then scanAttrs (.dq n "") rest
      else if c = '\'' then scanAttrs (.sq n "") rest
      else if isSpace c then (n, some "") :: scanAttrs .start rest
      else if c = ':' && rest.isEmpty then [(n, some "")]
      else scanAttrs (.unq n (String.singleton c)) rest
    | .dq n v =>
      if c = '"' then (n, some v) :: scanAttrs .start rest
      else scanAttrs (.dq n (v.push c)) rest
    | .sq n v =>
      if c = '\'' then (n, some v) :: scanAttrs .start rest
      else scanAttrs (.sq n (v.push c)) rest
    | .unq n v =>
      if isSpace c then (n, some v) :: scanAttrs .start rest
      else if c = ':' && rest.isEmpty then [(n, some v)]
      else scanAttrs (.unq n (v.push c)) rest

/-- First match of `/#([a-zA-Z0-9-]+)/` (source line 446): the id is the run
of tag characters after the first `#` that is followed by at least one; a
failed candidate resumes the search at the following character. -/
def idScan : List Char → Option String
  | [] => none
  | c :: rest =>
    if c = '#' then
      match rest with
      | [] => none
      | d :: r2 =>
        if isTagChar d then some ⟨d :: r2.takeWhile isTagChar⟩
        else idScan rest
    else idScan rest

/-- State of the class scanner: outside any candidate, just past a `.`,
or inside a class-name run. -/
inductive CState where
  | plain
  | dotSeen
  | inRun (acc : String)

/-- All matches of `/\.([a-zA-Z0-9-]+)/g` (source lines 452-455), in order. -/
def classScan (st : CState) : List Char → List String
  | [] =>
    match st with
    | .inRun acc => [acc]
    | _ => []
  | c :: rest =>
    match st with
    | .plain =>
      if c = '.' then classScan .dotSeen rest else classScan .plain rest
    | .dotSeen =>
      if isTagChar c then classScan (.inRun (String.singleton c)) rest
      else if c = '.' then classScan .dotSeen rest
      else classScan .plain rest
    | .inRun acc =>
      if isTagChar c then classScan (.inRun (acc.push c)) rest
      else if c = '.' then acc :: classScan .dotSeen rest
      else acc :: classScan .plain rest

/-- `parseElementKey` (source lines 360-459).
1. strip one trailing `:` (line 367);
2. `tagPart` is the leading run of non-whitespace (line 370); when there is
   none the parse is all-empty (line 371-374);
3. the attribute tail is tokenized by `scanAttrs` (lines 377-430);
4. if `tagPart` contains `=` and does not match `/^[a-zA-Z0-9-]+[#.]/`, the
   tag stays empty and the id/class scans run over the whole `tagPart`
   (lines 434-436); otherwise the tag is the leading `[a-zA-Z0-9-]` run and
   the scans run over the remainder (lines 438-442);
5. the id is the first `#name`, the classes every `.name` (lines 446-456). -/
def parseElementKey (key : String) : ParsedElement :=
  let l0 := key.toList
  let l := if l0.getLast? = some ':' then l0.dropLast else l0
  let tagPart := l.takeWhile (fun c => !isSpace c)
  if tagPart.isEmpty then ⟨"", "", [], []⟩
  else
    let attributes := scanAttrs .start (trimChars (l.drop tagPart.length))
    let headRun := tagPart.takeWhile isTagChar
    let delimiterOk : Bool :=
      !headRun.isEmpty &&
        (match tagPart.drop headRun.length with
         | '#' :: _ => true
         | '.' :: _ => true
         | _ => false)
    let invalid := tagPart.contains '=' && !delimiterOk
    let tag : String := if invalid then "" else ⟨headRun⟩
    let rest := if invalid then tagPart else tagPart.drop headRun.length
    ⟨tag, (idScan rest).getD "", classScan .plain rest, attributes⟩

/-! ## Building the opening tag (source `processElement`, lines 194-262) -/

/-- The pattern ` id="` of the regex `/ id="[^"]*"/` (source line 224). -/
def idPat : List Char := [' ', 'i', 'd', '=', '"']

/-- `html.replace(/ id="[^"]*"/, '')` (source line 224): remove the first
occurrence of ` id="` together with everything through the next `"`; the
regex needs that closing quote, so an occurrence without one does not match. -/
def replaceFirstIdAttr : List Char → List Char
  | [] => []
  | c :: rest =>
    if idPat.isPrefixOf (c :: rest) && ((c :: rest).drop 5).contains '"' then
      (((c :: rest).drop 5).dropWhile (· ≠ '"')).drop 1
    else c :: replaceFirstIdAttr rest

/-- Scan for an occurrence of `pat` followed (at any later point) by a `"`:
the matching condition of `new RegExp(` ${attrName}="[^"]*"`)` at a single
position, tried at every position. -/
def matchScan (pat : List Char) : List Char → Bool
  | [] => false
  | c :: rest =>
    (pat.isPrefixOf (c :: rest) && ((c :: rest).drop pat.length).contains '"')
      || matchScan pat rest

/-- `html.match(new RegExp(` ${attrName}="[^"]*"`))` (source line 248), for
attribute names built from letters, digits and hyphens (for which the
interpolated regex is a literal search). -/
def matchAttrRegex (html : String) (name : String) : Bool :=
  matchScan (' ' :: (name.toList ++ ['=', '"'])) html.toList

/-- `attributes.splice(attributes.indexOf(classAttr), 1)` (source line 214):
drop the first attribute named `class`. -/
def removeFirstClass : List (String × AttrVal) → List (String × AttrVal)
  | [] => []
  | a :: rest => if a.1 = "class" then rest else a :: removeFirstClass rest

/-- One step of the attribute loop (source lines 221-239): an `id` attribute
replaces the first ` id="…"` already in the string and is appended
(interpolated raw, line 225); `class` is skipped (already handled); a boolean
attribute is a bare name; an empty value gives `name=""`; anything else is
attribute-escaped.  A boolean `id` interpolates as the string `true`. -/
def applyAttr (html : String) (a : String × AttrVal) : String :=
  if a.1 = "id" then
    String.mk (replaceFirstIdAttr html.toList) ++ " id=\"" ++
      (match a.2 with | none => "true" | some v => v) ++ "\""
  else if a.1 = "class" then html
  else
    match a.2 with
    | none => html ++ " " ++ a.1
    | some "" => html ++ " " ++ a.1 ++ "=\"\""
    | some v => html ++ " " ++ a.1 ++ "=\"" ++ escapeAttribute v ++ "\""

/-- Errors raised by the converter.  `inputShape` is the root `TypeError`
(source line 61), `malformed` the malformed-element `Error`s (lines 171 and
191), `jsCrash` an uncaught runtime `TypeError` (the `classAttr.value.split`
call at line 208 applied to the boolean `true`), `outOfFuel` is the
interpreter's artificial fuel exhaustion (never reached from `processElement`,
whose fuel bound dominates the recursion depth). -/
inductive Err where
  | inputShape
  | malformed (msg : String)
  | jsCrash (msg : String)
  | outOfFuel
deriving Repr, DecidableEq

/-- Opening-tag construction (source lines 194-239): `<tag`, then
` id="…"` for a shorthand id (lines 198-200, raw interpolation), then the
class block (lines 203-218: shorthand classes concatenated with the
space-split, empty-dropped tokens of the first `class` attribute, undeduplicated,
the first `class` attribute then being spliced out), then the attribute loop. -/
def buildOpenTag (p : ParsedElement) : Except Err String :=
  let h0 := "<" ++ p.tag
  let h1 := if p.id ≠ "" then h0 ++ " id=\"" ++ p.id ++ "\"" else h0
  if !p.classes.isEmpty || p.attributes.any (fun a => a.1 = "class") then
    match p.attributes.find? (fun a => a.1 = "class") with
    | some ca =>
      match ca.2 with
      | none => .error (.jsCrash "classAttr.value.split is not a function")
      | some cv =>
        let attrClasses := (splitSpace cv.toList).filter (· ≠ "")
        let allClasses := p.classes ++ attrClasses
        let h2 :=
          if !allClasses.isEmpty then
            h1 ++ " class=\"" ++ String.intercalate " " allClasses ++ "\""
          else h1
        .ok ((removeFirstClass p.attributes).foldl applyAttr h2)
    | none =>
      if !p.classes.isEmpty then
        .ok (p.attributes.foldl applyAttr
          (h1 ++ " class=\"" ++ String.intercalate " " p.classes ++ "\""))
      else .ok (p.attributes.foldl applyAttr h1)
  else .ok (p.attributes.foldl applyAttr h1)

/-! ## The string-declaration normalizer (source lines 91-147) -/

/-- Result of normalizing a string element: either a declaration (object key)
with optional string content, or plain text. -/
inductive NormRes where
  | decl (key : String) (content : Option String)
  | plain
deriving Repr, DecidableEq

/-- `content.replace(/\\"/g, '"').replace(/\\'/g, "'")` (source line 138):
two sequential left-to-right passes. -/
def unescapeDq : List Char → List Char
  | '\\' :: '"' :: r => '"' :: unescapeDq r
  | c :: r => c :: unescapeDq r
  | [] => []

def unescapeSq : List Char → List Char
  | '\\' :: '\'' :: r => '\'' :: unescapeSq r
  | c :: r => c :: unescapeSq r
  | [] => []

/-- Quote stripping of the content half (source lines 132-142): surrounding
quotes are stripped only when the string both starts and ends with the same
quote character; internal escaped quotes are then unescaped; a result equal
to the literal `""` or `''` becomes the empty string. -/
def stripQuoteContent (contentStr : String) : String :=
  let l := contentStr.toList
  let content :=
    if (l.head? = some '"' && l.getLast? = some '"')
        || (l.head? = some '\'' && l.getLast? = some '\'') then
      ⟨unescapeSq (unescapeDq (l.dropLast.drop 1))⟩
    else contentStr
  if content = "\"\"" || content = "''" then "" else content

/-- The first-colon match `/^([^:]+?):\s+(.*)$/` (source line 120): succeeds
when the first `:` is not at position 0 and is followed by at least one
whitespace character, and the remainder after the maximal whitespace run is
free of line breaks (`.` does not match them); the groups are the part before
the first colon and that remainder. -/
def simpleMatch (s : String) : Option (String × String) :=
  let l := s.toList
  let g1 := l.takeWhile (· ≠ ':')
  if g1.isEmpty || g1.length = l.length then none
  else
    let rest := (l.drop g1.length).drop 1
    let w := rest.takeWhile isSpace
    if w.isEmpty then none
    else
      let r := rest.drop w.length
      if r.contains '\n' || r.contains '\r' then none
      else some (⟨g1⟩, ⟨r⟩)

/-- The string branch of `processElement` (source lines 97-147), in priority
order: a trailing `:` makes a declaration with null content, key trimmed
(lines 98-103); otherwise the earliest of `: "` / `: '` splits declaration
from quoted content, the double-quote pattern winning a tie (lines 105-144);
otherwise the first-colon match splits unless its declaration half contains
`//` (lines 118-125); otherwise the string is plain text. -/
def normalizeString (s : String) : NormRes :=
  if s.toList.getLast? = some ':' then
    .decl ⟨trimChars s.toList.dropLast⟩ none
  else
    let dq := findSub (": \"").toList s.toList
    let sq := findSub (": '").toList s.toList
    let colonIndex : Option Nat :=
      match dq, sq with
      | some d, some q => if d < q then some d else some q
      | some d, none => some d
      | none, some q => some q
      | none, none => none
    match colonIndex with
    | some i =>
      .decl ⟨s.toList.take i⟩ (some (stripQuoteContent ⟨s.toList.drop (i + 2)⟩))
    | none =>
      match simpleMatch s with
      | some (g1, g2) =>
        if (findSub "//".toList g1.toList).isSome then .plain
        else .decl g1 (some g2)
      | none => .plain

/-! ## The tree renderer (source `processElement` / `convertToHtml`) -/

/-- A plain-data input tree: null (also covering `undefined`), string, number,
boolean, array and object nodes.  Objects are association lists in key order
(JavaScript insertion order); the converter only ever reads the first key. -/
inductive Node where
  | null
  | str (s : String)
  | num (n : Int)
  | bool (b : Bool)
  | arr (xs : List Node)
  | obj (kvs : List (String × Node))
deriving Repr

/-- `'children' in value` (source line 242). -/
def hasChildrenKey (kvs : List (String × Node)) : Bool :=
  kvs.any (fun kv => kv.1 = "children")

/-- `value.children` (source line 288): the first binding of `children`. -/
def lookupKey (kvs : List (String × Node)) (k : String) : Option Node :=
  (kvs.find? (fun kv => kv.1 = k)).map (fun kv => kv.2)

/-- `p.toList.isPrefixOf` view of `key.startsWith(p)` (source line 185). -/
def jsStartsWith (s pre : String) : Bool :=
  pre.toList.isPrefixOf s.toList

/-- The pending work of the interpreter: render a node (`processElement`),
render one key/value element (the object branch of `processElement`,
lines 167-328), render a children array (`flattenChildren`, lines 275-283 /
290-297), or stringify a value (JavaScript `String(x)`, used at lines 258,
306-308 and 315-318). -/
inductive Task where
  | node (n : Node)
  | kv (k : String) (v : Node)
  | seq (xs : List Node)
  | jstr (n : Node)

/-- The task for one member of a children array (source lines 276-281):
a nested array is flattened recursively, everything else is rendered. -/
def childTask : Node → Task
  | .arr ys => .seq ys
  | x => .node x

/-- `flattenChildren(arr)` (source lines 275-283): map over the members,
recursing on nested arrays and rendering the rest, concatenated in order
(the first raised error aborts the whole call).
`r` is the recursive entry of the interpreter. -/
def seqFold (r : Task → Except Err String) : List Node → Except Err String
  | [] => .ok ""
  | x :: xs =>
    match r (childTask x) with
    | .error e => .error e
    | .ok s =>
      match seqFold r xs with
      | .error e => .error e
      | .ok t => .ok (s ++ t)

/-- One member under `Array.prototype.toString`: null and undefined members
contribute the empty string, the rest stringify. -/
def jstrElem (r : Task → Except Err String) : Node → Except Err String
  | .null => .ok ""
  | x => r (.jstr x)

/-- `Array.prototype.toString` as used by JavaScript `String(x)` on an array:
members stringified and joined with `,`, null members contributing the
empty string. -/
def jstrFold (r : Task → Except Err String) : List Node → Except Err String
  | [] => .ok ""
  | x :: xs =>
    match jstrElem r x with
    | .error e => .error e
    | .ok s =>
      match jstrFold r xs with
      | .error e => .error e
      | .ok t => .ok (if xs.isEmpty then s else s ++ "," ++ t)

/-- `attrValue === true` (source lines 229, 250). -/
def isBoolTrue : Node → Bool
  | .bool true => true
  | _ => false

/-- `attrValue === ''` (source lines 232, 253, and the `!== ''` checks at
lines 299, 311). -/
def isEmptyStr : Node → Bool
  | .str s => s == ""
  | _ => false

/-- `value === null || value === undefined` (source lines 299, 311):
both collapse to the `null` node. -/
def isNull : Node → Bool
  | .null => true
  | _ => false

/-- The object-notation attribute merge (source lines 242-262): for a value
object containing a `children` key, each non-`children` entry whose name does
not already occur as ` name="…"` in the opening tag built so far is appended —
the value `true` as a bare name, the empty string as `name=""`, anything else
stringified and attribute-escaped. -/
def mergeFold (r : Task → Except Err String) (h : String) :
    List (String × Node) → Except Err String
  | [] => .ok h
  | entry :: rest =>
    if entry.1 = "children" then mergeFold r h rest
    else if matchAttrRegex h entry.1 then mergeFold r h rest
    else if isBoolTrue entry.2 then mergeFold r (h ++ " " ++ entry.1) rest
    else if isEmptyStr entry.2 then mergeFold r (h ++ " " ++ entry.1 ++ "=\"\"") rest
    else
      match r (.jstr entry.2) with
      | .ok sv =>
        mergeFold r (h ++ " " ++ entry.1 ++ "=\"" ++ escapeAttribute sv ++ "\"") rest
      | .error e => .error e

/-- Render the body text of a non-raw or raw tag (source lines 304-309 and
313-319): `script` and `style` content is emitted verbatim, all other text
is HTML-escaped. -/
def textBody (tag s : String) : String :=
  if rawContentTags.contains tag then s else escapeHtml s

/-- The object-notation attribute merge applied to an element's value
(source lines 242-262): only an object value containing a `children` key is
merged; everything else leaves the opening tag alone. -/
def kvMerge (r : Task → Except Err String) (html0 : String) (v : Node) :
    Except Err String :=
  match v with
  | .obj kvs => if hasChildrenKey kvs then mergeFold r html0 kvs else .ok html0
  | _ => .ok html0

/-- `String(x)` rendered as body text of `tag` (source lines 299-309 and
311-319). -/
def textOf (r : Task → Except Err String) (tag : String) (n : Node) :
    Except Err String :=
  match r (.jstr n) with
  | .ok s => .ok (textBody tag s)
  | .error e => .error e

/-- The body of a non-self-closing element (source lines 273-323): an array
value through `flattenChildren`; an object value with a `children` key
through its `children` member (an array again through `flattenChildren`,
null/undefined/empty-string nothing, anything else a single text child);
a null or empty-string value nothing; any other value as text. -/
def kvBody (r : Task → Except Err String) (tag : String) (v : Node) :
    Except Err String :=
  match v with
  | .arr xs => seqFold r xs
  | .obj kvs =>
    if hasChildrenKey kvs then
      match lookupKey kvs "children" with
      | some (.arr ys) => seqFold r ys
      | some ch => if isNull ch || isEmptyStr ch then .ok "" else textOf r tag ch
      | none => .ok ""
    else textOf r tag v
  | other => if isNull other || isEmptyStr other then .ok "" else textOf r tag other

/-- One step of the interpreter; `r` stands for the recursive calls.  This is
the line-by-line translation of `processElement` (source lines 84-332).

* `.node`: dispatch on the element type.  `null` renders to `""` (line 87);
  a string runs the normalizer and either recurses as an element or returns
  escaped text (lines 91-148); numbers and booleans are escaped text of their
  printed form (lines 151-153); an object recurses on its first key/value —
  no keys at all hits the falsy-key check (lines 167-171); an array reaches
  none of the branches and falls through to `return ''` (line 331).
* `.kv`: the object branch.  An empty key throws (line 171); a key starting
  with `!DOCTYPE` or `"!DOCTYPE` short-circuits (lines 185-187); an empty
  parsed tag throws (lines 190-192); the opening tag is built, object-notation
  attributes merged (lines 242-262), a self-closing tag returns at once with
  `>` (lines 265-268); otherwise the body is rendered from the value —
  an array through `flattenChildren` (lines 273-284); an object with a
  `children` key through its `children` member (lines 285-310, a non-array
  member rendering as a single text child unless null/undefined/empty);
  any other non-null non-empty value as text (lines 311-319) — and the
  closing tag is appended (line 326).
* `.seq`: `flattenChildren`.
* `.jstr`: JavaScript `String(x)`. -/
def runStep (r : Task → Except Err String) : Task → Except Err String
  | .node n =>
    match n with
    | .null => .ok ""
    | .str s =>
      match normalizeString s with
      | .decl k c => r (.kv k (match c with | none => .null | some t => .str t))
      | .plain => .ok (escapeHtml s)
    | .num i => .ok (escapeHtml (toString i))
    | .bool b => .ok (escapeHtml (if b then "true" else "false"))
    | .arr _ => .ok ""
    | .obj kvs =>
      match kvs with
      | [] => .error (.malformed "Malformed YAHTML element: empty element key")
      | (k, v) :: _ => r (.kv k v)
  | .kv k v =>
    if k = "" then .error (.malformed "Malformed YAHTML element: empty element key")
    else if jsStartsWith k "\"!DOCTYPE" || jsStartsWith k "!DOCTYPE" then
      .ok "<!DOCTYPE html>"
    else
      let p := parseElementKey k
      if p.tag = "" then
        .error (.malformed ("Malformed YAHTML element: \"" ++ k ++
          "\" - element must have a valid tag name"))
      else
        match buildOpenTag p with
        | .error e => .error e
        | .ok html0 =>
          match kvMerge r html0 v with
          | .error e => .error e
          | .ok html1 =>
            if SELF_CLOSING_TAGS.contains p.tag then .ok (html1 ++ ">")
            else
              match kvBody r p.tag v with
              | .error e => .error e
              | .ok body => .ok (html1 ++ ">" ++ body ++ "</" ++ p.tag ++ ">")
  | .seq xs => seqFold r xs
  | .jstr n =>
    match n with
    | .null => .ok "null"
    | .str s => .ok s
    | .num i => .ok (toString i)
    | .bool b => .ok (if b then "true" else "false")
    | .obj _ => .ok "[object Object]"
    | .arr xs => jstrFold r xs

/-- The fuel-indexed interpreter: `run (fuel+1)` performs one `runStep` with
`run fuel` as the recursive entry. -/
def run : Nat → Task → Except Err String
  | 0, _ => .error .outOfFuel
  | fuel + 1, t => runStep (run fuel) t

/-- A fuel bound dominating the recursion depth of the interpreter from a
node: every constructor contributes generously more than the interpreter's
task chain through it consumes. -/
def nodeFuel : Node → Nat
  | .null => 4
  | .str _ => 4
  | .num _ => 4
  | .bool _ => 4
  | .arr [] => 4
  | .arr (x :: xs) => 1 + nodeFuel x + nodeFuel (.arr xs)
  | .obj [] => 4
  | .obj ((a, v) :: kvs) => 1 + nodeFuel v + nodeFuel (.obj kvs)
termination_by n => sizeOf n
decreasing_by all_goals simp <;> omega

/-- `processElement` (source lines 84-332): the interpreter started on a
single node, with enough fuel for its whole recursion. -/
def processElement (n : Node) : Except Err String :=
  run (nodeFuel n) (.node n)

/-- `yhtmlContent.map(element => processElement(element)).join('')`
(source line 64): each member rendered in order, the first raised error
aborting the whole call. -/
def convGo : List Node → Except Err String
  | [] => .ok ""
  | x :: xs =>
    match processElement x with
    | .error e => .error e
    | .ok s =>
      match convGo xs with
      | .error e => .error e
      | .ok t => .ok (s ++ t)

/-- `convertToHtml` (source lines 59-65): a non-array root throws the input
shape `TypeError` before any element is processed; an array root maps
`processElement` over its members and concatenates. -/
def convertToHtml (root : Node) : Except Err String :=
  match root with
  | .arr xs => convGo xs
  | _ => .error .inputShape

/-- `Array.isArray` view of a node. -/
def isArrNode : Node → Bool
  | .arr _ => true
  | _ => false

/-- JavaScript `String(x)` on a non-array node (no recursion needed):
`String(null)`, identity on strings, printed numbers and booleans,
`[object Object]` on plain objects. -/
def leafString : Node → String
  | .null => "null"
  | .str s => s
  | .num i => toString i
  | .bool b => if b then "true" else "false"
  | .obj _ => "[object Object]"
  | .arr _ => ""

/-- The attribute-object merge as the spec describes it (a `children` entry
skipped, an entry already present as ` name="…"` in the opening tag skipped,
the value `true` a bare name, the empty string `name=""`, anything else
stringified and attribute-escaped), written without the interpreter. -/
def mergeSpec (h : String) : List (String × Node) → String
  | [] => h
  | entry :: rest =>
    if entry.1 = "children" then mergeSpec h rest
    else if matchAttrRegex h entry.1 then mergeSpec h rest
    else if isBoolTrue entry.2 then mergeSpec (h ++ " " ++ entry.1) rest
    else if isEmptyStr entry.2 then mergeSpec (h ++ " " ++ entry.1 ++ "=\"\"") rest
    else mergeSpec (h ++ " " ++ entry.1 ++ "=\"" ++
      escapeAttribute (leafString entry.2) ++ "\"") rest

/-- Characters suitable for an unquoted attribute value. -/
def unqChar (c : Char) : Prop :=
  isSpace c = false ∧ c ≠ ':' ∧ c ≠ '"' ∧ c ≠ '\''

/-- The `.c1.c2…` shorthand segment of a declaration. -/
def classShorthand : List String → String
  | [] => ""
  | c :: cs => "." ++ c ++ classShorthand cs

/-- Tokens joined by single spaces (the canonical `class` attribute value). -/
def spaceJoined : List String → String
  | [] => ""
  | [t] => t
  | t :: ts => t ++ " " ++ spaceJoined ts

def Agrees (r r' : Task → Except Err String) : Prop :=
  ∀ t, r t ≠ .error .outOfFuel → r' t = r t

/-- Unfolding helper: `processElement` is the interpreter at the node's fuel. -/
theorem processElement_run (n : Node) (f : Nat) (h : nodeFuel n = f) :
    processElement n = run f (.node n) := by
  rw [processElement, h]

/-! ## Fuel monotonicity

Any interpreter result other than fuel exhaustion is stable under giving the
interpreter more fuel.  `Agrees r r'` says the callback `r'` reproduces every
non-out-of-fuel answer of `r`; each fold preserves agreement, one `runStep`
preserves agreement, and induction on the fuel gives monotonicity of `run`. -/

theorem seqFold_congr {r r' : Task → Except Err String} (H : Agrees r r') :
    ∀ xs, seqFold r xs ≠ .error .outOfFuel → seqFold r' xs = seqFold r xs := by
  intro xs
  induction xs with
  | nil => intro _; rfl
  | cons x xs ih =>
    intro hne
    simp only [seqFold] at hne ⊢
    cases hx : r (childTask x) with
    | error e =>
      have he : e ≠ .outOfFuel := by
        rw [hx] at hne; simpa using hne
      rw [H _ (by rw [hx]; simp [he]), hx]
    | ok s =>
      rw [H _ (by rw [hx]; simp), hx]
      rw [hx] at hne
      cases ht : seqFold r xs with
      | error e =>
        have he : e ≠ .outOfFuel := by
          rw [ht] at hne; simpa using hne
        rw [ih (by rw [ht]; simp [he]), ht]
      | ok t => rw [ih (by rw [ht]; simp), ht]

theorem jstrElem_congr {r r' : Task → Except Err String} (H : Agrees r r')
    (x : Node) (hne : jstrElem r x ≠ .error .outOfFuel) :
    jstrElem r' x = jstrElem r x := by
  cases x with
  | null => rfl
  | str s => exact H _ hne
  | num i => exact H _ hne
  | bool b => exact H _ hne
  | arr xs => exact H _ hne
  | obj kvs => exact H _ hne

theorem jstrFold_congr {r r' : Task → Except Err String} (H : Agrees r r') :
    ∀ xs, jstrFold r xs ≠ .error .outOfFuel → jstrFold r' xs = jstrFold r xs := by
  intro xs
  induction xs with
  | nil => intro _; rfl
  | cons x xs ih =>
    intro hne
    simp only [jstrFold] at hne ⊢
    cases hx : jstrElem r x with
    | error e =>
      have he : e ≠ .outOfFuel := by
        rw [hx] at hne; simpa using hne
      rw [jstrElem_congr H x (by rw [hx]; simp [he]), hx]
    | ok s =>
      rw [jstrElem_congr H x (by rw [hx]; simp), hx]
      rw [hx] at hne
      cases ht : jstrFold r xs with
      | error e =>
        have he : e ≠ .outOfFuel := by
          rw [ht] at hne; simpa using hne
        rw [ih (by rw [ht]; simp [he]), ht]
      | ok t => rw [ih (by rw [ht]; simp), ht]

theorem mergeFold_congr {r r' : Task → Except Err String} (H : Agrees r r') :
    ∀ kvs h, mergeFold r h kvs ≠ .error .outOfFuel →
      mergeFold r' h kvs = mergeFold r h kvs := by
  intro kvs
  induction kvs with
  | nil => intro h _; rfl
  | cons entry rest ih =>
    intro h hne
    by_cases h1 : entry.1 = "children"
    · simp only [mergeFold, if_pos h1] at hne ⊢; exact ih h hne
    · by_cases h2 : matchAttrRegex h entry.1
      · simp only [mergeFold, if_neg h1, if_pos h2] at hne ⊢; exact ih h hne
      · by_cases h3 : isBoolTrue entry.2
        · simp only [mergeFold, if_neg h1, if_neg h2, if_pos h3] at hne ⊢
          exact ih _ hne
        · by_cases h4 : isEmptyStr entry.2
          · simp only [mergeFold, if_neg h1, if_neg h2, if_neg h3, if_pos h4] at hne ⊢
            exact ih _ hne
          · simp only [mergeFold, if_neg h1, if_neg h2, if_neg h3, if_neg h4] at hne ⊢
            cases hx : r (.jstr entry.2) with
            | error e =>
              have he : e ≠ .outOfFuel := by
                rw [hx] at hne; simpa using hne
              rw [H _ (by rw [hx]; simp [he]), hx]
            | ok sv =>
              rw [H _ (by rw [hx]; simp), hx]
              rw [hx] at hne
              exact ih _ hne

theorem textOf_congr {r r' : Task → Except Err String} (H : Agrees r r')
    (tag : String) (n : Node) (hne : textOf r tag n ≠ .error .outOfFuel) :
    textOf r' tag n = textOf r tag n := by
  simp only [textOf] at hne ⊢
  cases hx : r (.jstr n) with
  | error e =>
    have he : e ≠ .outOfFuel := by
      rw [hx] at hne; simpa using hne
    rw [H _ (by rw [hx]; simp [he]), hx]
  | ok s => rw [H _ (by rw [hx]; simp), hx]

theorem kvMerge_congr {r r' : Task → Except Err String} (H : Agrees r r')
    (h0 : String) (v : Node) (hne : kvMerge r h0 v ≠ .error .outOfFuel) :
    kvMerge r' h0 v = kvMerge r h0 v := by
  cases v with
  | obj kvs =>
    simp only [kvMerge] at hne ⊢
    by_cases hc : hasChildrenKey kvs
    · simp only [if_pos hc] at hne ⊢
      exact mergeFold_congr H kvs h0 hne
    · simp [if_neg hc]
  | null => rfl
  | str s => rfl
  | num i => rfl
  | bool b => rfl
  | arr xs => rfl

theorem kvBody_congr {r r' : Task → Except Err String} (H : Agrees r r')
    (tag : String) (v : Node) (hne : kvBody r tag v ≠ .error .outOfFuel) :
    kvBody r' tag v = kvBody r tag v := by
  cases v with
  | arr xs => exact seqFold_congr H xs hne
  | obj kvs =>
    simp only [kvBody] at hne ⊢
    by_cases hc : hasChildrenKey kvs
    · simp only [if_pos hc] at hne ⊢
      cases hl : lookupKey kvs "children" with
      | none => rfl
      | some ch =>
        rw [hl] at hne
        cases ch with
        | arr ys => exact seqFold_congr H ys hne
        | null => rfl
        | str s =>
          by_cases hs : isNull (.str s) || isEmptyStr (.str s)
          · simp [hs]
          · simp only [hs, if_neg] at hne ⊢
            simp only [Bool.false_eq_true, if_false] at hne ⊢
            exact textOf_congr H tag (.str s) hne
        | num i => exact textOf_congr H tag (.num i) hne
        | bool b => exact textOf_congr H tag (.bool b) hne
        | obj kvs2 => exact textOf_congr H tag (.obj kvs2) hne
    · simp only [if_neg hc] at hne ⊢
      exact textOf_congr H tag (.obj kvs) hne
  | null => rfl
  | str s =>
    by_cases hs : isNull (.str s) || isEmptyStr (.str s)
    · simp [kvBody, hs]
    · simp only [kvBody, hs, Bool.false_eq_true, if_false] at hne ⊢
      exact textOf_congr H tag (.str s) hne
  | num i =>
    simp only [kvBody] at hne ⊢
    exact textOf_congr H tag (.num i) hne
  | bool b =>
    simp only [kvBody] at hne ⊢
    exact textOf_congr H tag (.bool b) hne

theorem runStep_congr {r r' : Task → Except Err String} (H : Agrees r r') :
    Agrees (runStep r) (runStep r') := by
  intro t hne
  cases t with
  | node n =>
    cases n with
    | null => rfl
    | num i => rfl
    | bool b => rfl
    | arr xs => rfl
    | str s =>
      simp only [runStep] at hne ⊢
      cases hn : normalizeString s with
      | plain => rfl
      | decl k c =>
        rw [hn] at hne
        exact H _ hne
    | obj kvs =>
      cases kvs with
      | nil => rfl
      | cons kv rest =>
        obtain ⟨k, v⟩ := kv
        simp only [runStep] at hne ⊢
        exact H _ hne
  | seq xs => exact seqFold_congr H xs hne
  | jstr n =>
    cases n with
    | arr xs => exact jstrFold_congr H xs hne
    | null => rfl
    | str s => rfl
    | num i => rfl
    | bool b => rfl
    | obj kvs => rfl
  | kv k v =>
    simp only [runStep] at hne ⊢
    by_cases h1 : k = ""
    · simp [h1]
    · simp only [if_neg h1] at hne ⊢
      by_cases h2 : (jsStartsWith k "\"!DOCTYPE" || jsStartsWith k "!DOCTYPE") = true
      · simp [h2]
      · simp only [h2, Bool.false_eq_true, if_false] at hne ⊢
        by_cases h3 : (parseElementKey k).tag = ""
        · simp [h3]
        · simp only [if_neg h3] at hne ⊢
          cases hb : buildOpenTag (parseElementKey k) with
          | error e => rfl
          | ok html0 =>
            rw [hb] at hne
            dsimp only at hne ⊢
            cases hm : kvMerge r html0 v with
            | error e =>
              have he : e ≠ .outOfFuel := by
                rw [hm] at hne; simpa using hne
              rw [kvMerge_congr H html0 v (by rw [hm]; simp [he]), hm]
            | ok html1 =>
              rw [kvMerge_congr H html0 v (by rw [hm]; simp), hm]
              rw [hm] at hne
              dsimp only at hne ⊢
              by_cases h4 : SELF_CLOSING_TAGS.contains (parseElementKey k).tag = true
              · simp only [if_pos h4]
              · simp only [if_neg h4] at hne ⊢
                cases hbd : kvBody r (parseElementKey k).tag v with
                | error e =>
                  have he : e ≠ .outOfFuel := by
                    rw [hbd] at hne; simpa using hne
                  rw [kvBody_congr H _ v (by rw [hbd]; simp [he]), hbd]
                | ok body =>
                  rw [kvBody_congr H _ v (by rw [hbd]; simp), hbd]

theorem run_agrees : ∀ f g : Nat, f ≤ g → Agrees (run f) (run g) := by
  intro f
  induction f with
  | zero => intro g _ t hne; exact absurd rfl hne
  | succ f ih =>
    intro g hg t hne
    obtain ⟨g', rfl⟩ : ∃ g'', g = g'' + 1 := ⟨g - 1, by omega⟩
    exact runStep_congr (ih g' (by omega)) t hne

/-- Main evaluation interface: any non-out-of-fuel interpreter result at any
fuel not exceeding the node's own bound is the value of `processElement`. -/
theorem processElement_eval (n : Node) (f : Nat) (res : Except Err String)
    (hf : run f (.node n) = res) (hne : res ≠ .error .outOfFuel)
    (hle : f ≤ nodeFuel n) : processElement n = res := by
  rw [processElement, run_agrees f (nodeFuel n) hle _ (by rw [hf]; exact hne), hf]

theorem nodeFuel_arr_ge (xs : List Node) : 4 ≤ nodeFuel (.arr xs) := by
  induction xs with
  | nil => simp [nodeFuel]
  | cons x xs ih => simp only [nodeFuel]; omega

theorem nodeFuel_obj_ge (kvs : List (String × Node)) : 4 ≤ nodeFuel (.obj kvs) := by
  induction kvs with
  | nil => simp [nodeFuel]
  | cons kv rest ih =>
    obtain ⟨a, v⟩ := kv
    simp only [nodeFuel]; omega

theorem nodeFuel_ge (n : Node) : 4 ≤ nodeFuel n := by
  cases n with
  | arr xs => exact nodeFuel_arr_ge xs
  | obj kvs => exact nodeFuel_obj_ge kvs
  | null => simp [nodeFuel]
  | str s => simp [nodeFuel]
  | num i => simp [nodeFuel]
  | bool b => simp [nodeFuel]

/-! ## Helper lemmas for the escapers -/

theorem escListWith_eq_self {f : Char → List Char} :
    ∀ l : List Char, (∀ c ∈ l, f c = [c]) → escListWith f l = l := by
  intro l h
  induction l with
  | nil => rfl
  | cons c r ih =>
    have hc : f c = [c] := h c (by simp)
    have hr := ih (fun d hd => h d (by simp [hd]))
    simp [escListWith, hc, hr]

theorem escListWith_append {f : Char → List Char} :
    ∀ l1 l2 : List Char, escListWith f (l1 ++ l2) = escListWith f l1 ++ escListWith f l2 := by
  intro l1 l2
  induction l1 with
  | nil => rfl
  | cons c r ih => simp [escListWith, ih]

theorem escapeHtml_append (a b : String) :
    escapeHtml (a ++ b) = escapeHtml a ++ escapeHtml b := by
  apply String.ext
  show escListWith escCharHtml (a ++ b).data = (escapeHtml a ++ escapeHtml b).data
  rw [String.data_append, String.data_append, escListWith_append]
  rfl

/-! ## Claims -/

/-- **C9.** For every string free of the characters `& < > " '`, both
escapers are the identity; and `escapeHtml` performs exactly the single-pass
replacements `&`→`&amp;`, `<`→`&lt;`, `>`→`&gt;`, `"`→`&quot;`, `'`→`&#39;`
(it maps each of the five characters to its entity and distributes over
concatenation, determining it on all strings together with the identity on
plain characters). -/
theorem claim9_escapers :
    (∀ s : String,
        (∀ c ∈ s.toList, c ≠ '&' ∧ c ≠ '<' ∧ c ≠ '>' ∧ c ≠ '"' ∧ c ≠ '\'') →
        escapeHtml s = s ∧ escapeAttribute s = s) ∧
    escapeHtml "&" = "&amp;" ∧ escapeHtml "<" = "&lt;" ∧
    escapeHtml ">" = "&gt;" ∧ escapeHtml "\"" = "&quot;" ∧
    escapeHtml "'" = "&#39;" ∧
    (∀ a b : String, escapeHtml (a ++ b) = escapeHtml a ++ escapeHtml b) := by
  refine ⟨?_, rfl, rfl, rfl, rfl, rfl, escapeHtml_append⟩
  intro s h
  constructor
  · show String.mk (escListWith escCharHtml s.toList) = s
    rw [escListWith_eq_self s.toList (fun c hc => by
      obtain ⟨h1, h2, h3, h4, h5⟩ := h c hc
      simp [escCharHtml, h1, h2, h3, h4, h5])]
    rfl
  · show String.mk (escListWith escCharAttr s.toList) = s
    rw [escListWith_eq_self s.toList (fun c hc => by
      obtain ⟨h1, h2, h3, h4, _⟩ := h c hc
      simp [escCharAttr, h1, h2, h3, h4])]
    rfl

/-- Witness for C9 at a concrete plain string. -/
theorem claim9_witness :
    escapeHtml "Hello World!" = "Hello World!" ∧
    escapeAttribute "Hello World!" = "Hello World!" :=
  claim9_escapers.1 "Hello World!" (by decide)

/-- Unfolding step for `convGo` on a rendered head element. -/
theorem convGo_cons (x : Node) (xs : List Node) (s t : String)
    (hx : processElement x = .ok s) (hxs : convGo xs = .ok t) :
    convGo (x :: xs) = .ok (s ++ t) := by
  show (match processElement x with
    | .error e => Except.error e
    | .ok s' =>
      match convGo xs with
      | .error e => Except.error e
      | .ok t' => Except.ok (s' ++ t')) = _
  rw [hx, hxs]

/-- **C1.**  Nested arrays are flattened depth-first only when they occur as
element *content* (`flattenChildren`): the third and fourth conjuncts show a
children array with nested arrays rendering identically to its pre-flattened
equivalent.  But `processElement` itself has no array branch — an array
falls through every `typeof` test to `return ''` — so a nested array that is
a direct member of the root sequence renders to the empty string: the first
two conjuncts show `convert(['a', ['b']])` yielding `"a"` where the claim
(and the renderer's own doc comment, which says arrays are processed
recursively) demands `"ab"`. -/
theorem claim1_root_nested_array_not_flattened :
    convertToHtml (.arr [.str "a", .arr [.str "b"]]) = .ok "a" ∧
    convertToHtml (.arr [.str "a", .str "b"]) = .ok "ab" ∧
    convertToHtml (.arr [.obj [("div",
        .arr [.str "a", .arr [.str "b", .arr [.str "c"]]])]]) = .ok "<div>abc</div>" ∧
    convertToHtml (.arr [.obj [("div",
        .arr [.str "a", .str "b", .str "c"])]]) = .ok "<div>abc</div>" := by
  have pa : processElement (.str "a") = .ok "a" :=
    processElement_eval _ 4 _ rfl (by simp) (nodeFuel_ge _)
  have pb : processElement (.str "b") = .ok "b" :=
    processElement_eval _ 4 _ rfl (by simp) (nodeFuel_ge _)
  have pArr : processElement (.arr [.str "b"]) = .ok "" :=
    processElement_eval _ 4 _ rfl (by simp) (nodeFuel_ge _)
  have pNested : processElement (.obj [("div",
      .arr [.str "a", .arr [.str "b", .arr [.str "c"]]])]) = .ok "<div>abc</div>" :=
    processElement_eval _ 10 _ rfl (by simp) (by simp only [nodeFuel]; omega)
  have pFlat : processElement (.obj [("div",
      .arr [.str "a", .str "b", .str "c"])]) = .ok "<div>abc</div>" :=
    processElement_eval _ 10 _ rfl (by simp) (by simp only [nodeFuel]; omega)
  have ha : convGo [Node.arr [.str "b"]] = .ok "" :=
    (convGo_cons _ [] _ "" pArr rfl).trans rfl
  have hb : convGo [Node.str "b"] = .ok "b" :=
    (convGo_cons _ [] _ "" pb rfl).trans rfl
  exact ⟨(convGo_cons _ _ _ _ pa ha).trans rfl,
    (convGo_cons _ _ _ _ pa hb).trans rfl,
    (convGo_cons _ [] _ "" pNested rfl).trans rfl,
    (convGo_cons _ [] _ "" pFlat rfl).trans rfl⟩

/-! ## Helper lemmas about the parser on symbolic keys -/

theorem toList_ne_empty (k : String) (c : Char) (rest : List Char)
    (hk : k.toList = c :: rest) : ¬ k = "" := by
  intro h
  subst h
  simp at hk

theorem jsStartsWith_toList (k p : String) (h : jsStartsWith k p = true) :
    ∃ t, k.toList = p.toList ++ t := by
  rw [jsStartsWith, List.isPrefixOf_iff_prefix] at h
  obtain ⟨t, ht⟩ := h
  exact ⟨t, ht.symm⟩

/-- A key whose first character is neither whitespace nor a tag character
parses to the empty tag. -/
theorem parse_head_not_tagchar (k : String) (c : Char) (rest : List Char)
    (hk : k.toList = c :: rest) (hc : isTagChar c = false)
    (hsp : isSpace c = false) : (parseElementKey k).tag = "" := by
  simp only [parseElementKey, hk]
  by_cases hlast : (c :: rest).getLast? = some ':'
  · rw [if_pos hlast]
    cases rest with
    | nil => simp
    | cons d rest' =>
      rw [List.dropLast_cons_of_ne_nil (by simp)]
      rw [List.takeWhile_cons_of_pos (by simp [hsp])]
      simp only [List.isEmpty_cons, if_false]
      rw [List.takeWhile_cons_of_neg (by simp [hc])]
      by_cases hinv : (c :: List.dropLast (d :: rest')).contains '='
      · simp [hinv]
      · simp [hinv]
  · rw [if_neg hlast]
    rw [List.takeWhile_cons_of_pos (by simp [hsp])]
    simp only [List.isEmpty_cons, if_false]
    rw [List.takeWhile_cons_of_neg (by simp [hc])]
    by_cases hinv : (c :: rest).contains '='
    · simp [hinv]
    · simp [hinv]

/-- **C8.**  For every element whose declaration key starts with `!DOCTYPE`
(optionally quote-wrapped) and any value, rendering short-circuits to the
literal `<!DOCTYPE html>` — and indeed such a key parses to an empty tag,
so only the order of the checks (DOCTYPE before the empty-tag error) makes
this reachable. -/
theorem claim8_doctype_short_circuit (k : String) (v : Node)
    (h : (jsStartsWith k "!DOCTYPE" || jsStartsWith k "\"!DOCTYPE") = true) :
    processElement (.obj [(k, v)]) = .ok "<!DOCTYPE html>" ∧
    (parseElementKey k).tag = "" := by
  have hhead : ∃ c rest, k.toList = c :: rest ∧ isTagChar c = false ∧ isSpace c = false := by
    rcases Bool.or_eq_true_iff.mp h with h1 | h1
    · obtain ⟨t, ht⟩ := jsStartsWith_toList k _ h1
      exact ⟨'!', _, by simpa using ht, rfl, rfl⟩
    · obtain ⟨t, ht⟩ := jsStartsWith_toList k _ h1
      exact ⟨'"', _, by simpa using ht, rfl, rfl⟩
  obtain ⟨c, rest, hk, hc, hsp⟩ := hhead
  have hne : ¬ k = "" := toList_ne_empty k c rest hk
  have hd : (jsStartsWith k "\"!DOCTYPE" || jsStartsWith k "!DOCTYPE") = true := by
    rcases Bool.or_eq_true_iff.mp h with h1 | h1 <;> simp [h1]
  refine ⟨?_, parse_head_not_tagchar k c rest hk hc hsp⟩
  refine processElement_eval _ 2 _ ?_ (by simp) (le_trans (by omega) (nodeFuel_ge _))
  show runStep (run 1) (.node (.obj [(k, v)])) = .ok "<!DOCTYPE html>"
  simp only [runStep]
  show runStep (run 0) (.kv k v) = .ok "<!DOCTYPE html>"
  simp only [runStep, if_neg hne, hd, if_true]

/-- Witness for C8: a quote-free `!DOCTYPE` key with a value that would
otherwise render as body text. -/
theorem claim8_witness :
    processElement (.obj [("!DOCTYPE html", .str "ignored")]) = .ok "<!DOCTYPE html>" ∧
    (parseElementKey "!DOCTYPE html").tag = "" :=
  claim8_doctype_short_circuit "!DOCTYPE html" (.str "ignored") (by decide)

/-- **C4 counterexample.**  The claim says a key that parses to an empty tag
raises `MalformedElementError`; but a `!DOCTYPE` key parses to an empty tag
and renders `<!DOCTYPE html>` without error (the DOCTYPE check runs before
the empty-tag check). -/
theorem claim4_empty_tag_without_error :
    (parseElementKey "!DOCTYPE html").tag = "" ∧
    convertToHtml (.arr [.obj [("!DOCTYPE html", .null)]]) = .ok "<!DOCTYPE html>" := by
  refine ⟨by decide, ?_⟩
  have p : processElement (.obj [("!DOCTYPE html", .null)]) = .ok "<!DOCTYPE html>" :=
    processElement_eval _ 4 _ rfl (by simp) (nodeFuel_ge _)
  exact (convGo_cons _ [] _ "" p rfl).trans rfl

/-- **C4 (amended).**  `convert` raises the input-shape error on every
non-array root (and on the concrete `'not-an-array'`); an object node with an
empty key set or an empty first key raises the malformed-element error with
its fixed message; and every key that parses to an empty tag raises a
malformed-element error — provided the key does not begin with (optionally
quote-wrapped) `!DOCTYPE`, which instead short-circuits (see C8). -/
theorem claim4_amended_errors :
    (∀ root : Node, (∀ xs, root ≠ .arr xs) → convertToHtml root = .error .inputShape) ∧
    convertToHtml (.str "not-an-array") = .error .inputShape ∧
    processElement (.obj []) =
      .error (.malformed "Malformed YAHTML element: empty element key") ∧
    convertToHtml (.arr [.obj [("", .str "x")]]) =
      .error (.malformed "Malformed YAHTML element: empty element key") ∧
    (∀ (k : String) (v : Node),
      (jsStartsWith k "\"!DOCTYPE" || jsStartsWith k "!DOCTYPE") = false →
      (parseElementKey k).tag = "" →
      ∃ msg, processElement (.obj [(k, v)]) = .error (.malformed msg)) := by
  refine ⟨?_, rfl, ?_, ?_, ?_⟩
  · intro root h
    cases root with
    | arr xs => exact absurd rfl (h xs)
    | null => rfl
    | str s => rfl
    | num i => rfl
    | bool b => rfl
    | obj kvs => rfl
  · exact processElement_eval _ 4 _ rfl (by simp) (nodeFuel_ge _)
  · have p : processElement (.obj [("", .str "x")]) =
        .error (.malformed "Malformed YAHTML element: empty element key") :=
      processElement_eval _ 4 _ rfl (by simp) (nodeFuel_ge _)
    show (match processElement (Node.obj [("", Node.str "x")]) with
      | .error e => Except.error e
      | .ok s =>
        match convGo [] with
        | .error e => Except.error e
        | .ok t => Except.ok (s ++ t)) = _
    rw [p]
  · intro k v hd htag
    by_cases hk : k = ""
    · refine ⟨"Malformed YAHTML element: empty element key", ?_⟩
      refine processElement_eval _ 2 _ ?_ (by simp) (le_trans (by omega) (nodeFuel_ge _))
      show runStep (run 1) (.node (.obj [(k, v)])) = _
      simp only [runStep]
      show runStep (run 0) (.kv k v) = _
      simp only [runStep, if_pos hk]
    · refine ⟨"Malformed YAHTML element: \"" ++ k ++
        "\" - element must have a valid tag name", ?_⟩
      refine processElement_eval _ 2 _ ?_ (by simp) (le_trans (by omega) (nodeFuel_ge _))
      show runStep (run 1) (.node (.obj [(k, v)])) = _
      simp only [runStep]
      show runStep (run 0) (.kv k v) = _
      simp only [runStep, if_neg hk, hd, Bool.false_eq_true, if_false, htag, if_true]

/-- Witness for C4 at concrete inputs: a numeric root and a key with no
valid tag name. -/
theorem claim4_witness :
    convertToHtml (.num 5) = .error .inputShape ∧
    ∃ msg, processElement (.obj [("#nope", .null)]) = .error (.malformed msg) :=
  ⟨claim4_amended_errors.1 (.num 5) (fun xs => by simp),
   claim4_amended_errors.2.2.2.2 "#nope" .null (by decide) (by decide)⟩

/-! ## Helper lemmas for the self-closing and attribute-merge claims -/

theorem sc_contains_ne_empty (tag : String)
    (h : SELF_CLOSING_TAGS.contains tag = true) : tag ≠ "" := by
  intro heq
  rw [heq] at h
  exact absurd h (by decide)

/-- A key whose parse has a non-empty tag passes the empty-key and DOCTYPE
checks of the renderer. -/
theorem tag_ne_checks (k : String) (h : (parseElementKey k).tag ≠ "") :
    ¬ k = "" ∧ (jsStartsWith k "\"!DOCTYPE" || jsStartsWith k "!DOCTYPE") = false := by
  constructor
  · intro hk
    subst hk
    exact h (by decide)
  · by_contra hb
    have hd : (jsStartsWith k "\"!DOCTYPE" || jsStartsWith k "!DOCTYPE") = true :=
      Bool.ne_false_iff.mp hb
    have hhead : ∃ c rest, k.toList = c :: rest ∧ isTagChar c = false ∧ isSpace c = false := by
      rcases Bool.or_eq_true_iff.mp hd with h1 | h1
      · obtain ⟨t, ht⟩ := jsStartsWith_toList k _ h1
        exact ⟨'"', _, by simpa using ht, rfl, rfl⟩
      · obtain ⟨t, ht⟩ := jsStartsWith_toList k _ h1
        exact ⟨'!', _, by simpa using ht, rfl, rfl⟩
    obtain ⟨c, rest, hk, hc, hsp⟩ := hhead
    exact h (parse_head_not_tagchar k c rest hk hc hsp)

theorem kvMerge_no_children (r : Task → Except Err String) (h0 : String)
    (v : Node) (h : ∀ kvs, v = .obj kvs → hasChildrenKey kvs = false) :
    kvMerge r h0 v = .ok h0 := by
  cases v with
  | obj kvs => simp [kvMerge, h kvs rfl]
  | null => rfl
  | str s => rfl
  | num i => rfl
  | bool b => rfl
  | arr xs => rfl

theorem jstr_leaf (f : Nat) (n : Node) (hn : isArrNode n = false) :
    run (f + 1) (.jstr n) = .ok (leafString n) := by
  cases n with
  | null => rfl
  | str s => rfl
  | num i => rfl
  | bool b => rfl
  | obj kvs => rfl
  | arr xs => simp [isArrNode] at hn

theorem mergeFold_eq_spec (f : Nat) :
    ∀ (kvs : List (String × Node)) (h0 : String),
      (∀ p ∈ kvs, isArrNode p.2 = false) →
      mergeFold (run (f + 1)) h0 kvs = .ok (mergeSpec h0 kvs) := by
  intro kvs
  induction kvs with
  | nil => intro h0 _; rfl
  | cons entry rest ih =>
    intro h0 hleaf
    have he : isArrNode entry.2 = false := hleaf entry (by simp)
    have hr : ∀ p ∈ rest, isArrNode p.2 = false := fun p hp => hleaf p (by simp [hp])
    by_cases h1 : entry.1 = "children"
    · simp only [mergeFold, mergeSpec, if_pos h1]; exact ih h0 hr
    · by_cases h2 : matchAttrRegex h0 entry.1
      · simp only [mergeFold, mergeSpec, if_neg h1, if_pos h2]; exact ih h0 hr
      · by_cases h3 : isBoolTrue entry.2
        · simp only [mergeFold, mergeSpec, if_neg h1, if_neg h2, if_pos h3]
          exact ih _ hr
        · by_cases h4 : isEmptyStr entry.2
          · simp only [mergeFold, mergeSpec, if_neg h1, if_neg h2, if_neg h3, if_pos h4]
            exact ih _ hr
          · simp only [mergeFold, mergeSpec, if_neg h1, if_neg h2, if_neg h3, if_neg h4,
              jstr_leaf f entry.2 he]
            exact ih _ hr

/-- **C2.**  For every element whose parsed tag is in the Self-Closing Tag
Registry, rendering emits the opening tag followed by `>` and nothing else —
no body text, no children, no closing tag — regardless of the content
supplied.  For content that is not an attribute object the output is exactly
the opening tag; for attribute-object content (with non-array attribute
values) the merged attributes land inside the opening tag and the output is
still only that tag; and in particular `render({img: "ignored"}) = '<img>'`. -/
theorem claim2_self_closing_only_opening_tag :
    (∀ (k : String) (v : Node) (s : String),
      SELF_CLOSING_TAGS.contains (parseElementKey k).tag = true →
      buildOpenTag (parseElementKey k) = .ok s →
      (∀ kvs, v = .obj kvs → hasChildrenKey kvs = false) →
      processElement (.obj [(k, v)]) = .ok (s ++ ">")) ∧
    (∀ (k : String) (kvs : List (String × Node)) (s : String),
      SELF_CLOSING_TAGS.contains (parseElementKey k).tag = true →
      buildOpenTag (parseElementKey k) = .ok s →
      hasChildrenKey kvs = true →
      (∀ p ∈ kvs, isArrNode p.2 = false) →
      processElement (.obj [(k, .obj kvs)]) = .ok (mergeSpec s kvs ++ ">")) ∧
    processElement (.obj [("img", .str "ignored")]) = .ok "<img>" := by
  refine ⟨?_, ?_, processElement_eval _ 4 _ rfl (by simp) (nodeFuel_ge _)⟩
  · intro k v s hsc hb hnc
    obtain ⟨hk, hd⟩ := tag_ne_checks k (sc_contains_ne_empty _ hsc)
    refine processElement_eval _ 2 _ ?_ (by simp) (le_trans (by omega) (nodeFuel_ge _))
    show runStep (run 1) (.node (.obj [(k, v)])) = _
    simp only [runStep]
    show runStep (run 0) (.kv k v) = _
    simp only [runStep, if_neg hk, hd, Bool.false_eq_true, if_false,
      if_neg (sc_contains_ne_empty _ hsc), hb]
    rw [kvMerge_no_children (run 0) s v hnc]
    dsimp only
    rw [if_pos hsc]
  · intro k kvs s hsc hb hch hleaf
    obtain ⟨hk, hd⟩ := tag_ne_checks k (sc_contains_ne_empty _ hsc)
    refine processElement_eval _ 3 _ ?_ (by simp) (le_trans (by omega) (nodeFuel_ge _))
    show runStep (run 2) (.node (.obj [(k, .obj kvs)])) = _
    simp only [runStep]
    show runStep (run 1) (.kv k (.obj kvs)) = _
    simp only [runStep, if_neg hk, hd, Bool.false_eq_true, if_false,
      if_neg (sc_contains_ne_empty _ hsc), hb]
    show (match kvMerge (run 1) s (Node.obj kvs) with
      | Except.error e => Except.error e
      | Except.ok html1 =>
        if SELF_CLOSING_TAGS.contains (parseElementKey k).tag = true then
          Except.ok (html1 ++ ">")
        else
          match kvBody (run 1) (parseElementKey k).tag (Node.obj kvs) with
          | Except.error e => Except.error e
          | Except.ok body =>
            Except.ok (html1 ++ ">" ++ body ++ "</" ++ (parseElementKey k).tag ++ ">")) = _
    rw [show kvMerge (run 1) s (.obj kvs) = .ok (mergeSpec s kvs) by
      simp only [kvMerge, if_pos hch]
      exact mergeFold_eq_spec 0 kvs s hleaf]
    dsimp only
    rw [if_pos hsc]

/-- Witness for C2: a `br` element with null content. -/
theorem claim2_witness : processElement (.obj [("br", .null)]) = .ok "<br>" :=
  claim2_self_closing_only_opening_tag.1 "br" .null "<br" (by decide) rfl
    (fun kvs h => Node.noConfusion h)

/-- **C3 counterexample.**  The claim treats any object content with zero or
more attribute entries and an *optional* `children` entry as an Attribute
Object whose entries merge into the tag's attributes.  The code only merges
when a `children` key is present: without one the object is stringified as
body text, so `{p: {title: "x"}}` renders `<p>[object Object]</p>` instead of
`<p title="x"></p>` — while the same entry with a `children` key does merge. -/
theorem claim3_no_merge_without_children :
    processElement (.obj [("p", .obj [("title", .str "x")])]) =
      .ok "<p>[object Object]</p>" ∧
    processElement (.obj [("p", .obj [("title", .str "x"), ("children", .null)])]) =
      .ok "<p title=\"x\"></p>" :=
  ⟨processElement_eval _ 6 _ rfl (by simp) (by simp only [nodeFuel]; omega),
   processElement_eval _ 6 _ rfl (by simp) (by simp only [nodeFuel]; omega)⟩

/-- **C3 (amended).**  For every element whose content is an object *that
contains a `children` entry*, each non-`children` entry is merged into the
opening tag's attributes under the boolean/empty/regular rules, skipping an
entry whose attribute name already occurs as ` name="…"` in the tag built
from the declaration (`mergeSpec`); an object content *without* a `children`
entry is not merged at all but stringified as `[object Object]` body text. -/
theorem claim3_amended_merge_requires_children :
    (∀ (k : String) (kvs : List (String × Node)) (s : String),
      (parseElementKey k).tag ≠ "" →
      SELF_CLOSING_TAGS.contains (parseElementKey k).tag = false →
      buildOpenTag (parseElementKey k) = .ok s →
      hasChildrenKey kvs = true →
      lookupKey kvs "children" = some .null →
      (∀ p ∈ kvs, isArrNode p.2 = false) →
      processElement (.obj [(k, .obj kvs)]) =
        .ok (mergeSpec s kvs ++ ">" ++ "</" ++ (parseElementKey k).tag ++ ">")) ∧
    (∀ (k : String) (kvs : List (String × Node)) (s : String),
      (parseElementKey k).tag ≠ "" →
      SELF_CLOSING_TAGS.contains (parseElementKey k).tag = false →
      buildOpenTag (parseElementKey k) = .ok s →
      hasChildrenKey kvs = false →
      processElement (.obj [(k, .obj kvs)]) =
        .ok (s ++ ">" ++ textBody (parseElementKey k).tag "[object Object]" ++
          "</" ++ (parseElementKey k).tag ++ ">")) := by
  constructor
  · intro k kvs s htag hsc hb hch hlook hleaf
    obtain ⟨hk, hd⟩ := tag_ne_checks k htag
    refine processElement_eval _ 3 _ ?_ (by simp) (le_trans (by omega) (nodeFuel_ge _))
    show runStep (run 2) (.node (.obj [(k, .obj kvs)])) = _
    simp only [runStep]
    show runStep (run 1) (.kv k (.obj kvs)) = _
    simp only [runStep, if_neg hk, hd, Bool.false_eq_true, if_false, if_neg htag, hb]
    show (match kvMerge (run 1) s (Node.obj kvs) with
      | Except.error e => Except.error e
      | Except.ok html1 =>
        if SELF_CLOSING_TAGS.contains (parseElementKey k).tag = true then
          Except.ok (html1 ++ ">")
        else
          match kvBody (run 1) (parseElementKey k).tag (Node.obj kvs) with
          | Except.error e => Except.error e
          | Except.ok body =>
            Except.ok (html1 ++ ">" ++ body ++ "</" ++ (parseElementKey k).tag ++ ">")) = _
    rw [show kvMerge (run 1) s (.obj kvs) = .ok (mergeSpec s kvs) by
      simp only [kvMerge, if_pos hch]
      exact mergeFold_eq_spec 0 kvs s hleaf]
    dsimp only
    rw [hsc]
    simp only [Bool.false_eq_true, if_false]
    rw [show kvBody (run 1) (parseElementKey k).tag (.obj kvs) = .ok "" by
      simp only [kvBody, if_pos hch, hlook]
      rfl]
    simp
  · intro k kvs s htag hsc hb hch
    obtain ⟨hk, hd⟩ := tag_ne_checks k htag
    refine processElement_eval _ 3 _ ?_ (by simp) (le_trans (by omega) (nodeFuel_ge _))
    show runStep (run 2) (.node (.obj [(k, .obj kvs)])) = _
    simp only [runStep]
    show runStep (run 1) (.kv k (.obj kvs)) = _
    simp only [runStep, if_neg hk, hd, Bool.false_eq_true, if_false, if_neg htag, hb]
    show (match kvMerge (run 1) s (Node.obj kvs) with
      | Except.error e => Except.error e
      | Except.ok html1 =>
        if SELF_CLOSING_TAGS.contains (parseElementKey k).tag = true then
          Except.ok (html1 ++ ">")
        else
          match kvBody (run 1) (parseElementKey k).tag (Node.obj kvs) with
          | Except.error e => Except.error e
          | Except.ok body =>
            Except.ok (html1 ++ ">" ++ body ++ "</" ++ (parseElementKey k).tag ++ ">")) = _
    rw [show kvMerge (run 1) s (.obj kvs) = .ok s by simp [kvMerge, hch]]
    dsimp only
    rw [hsc]
    simp only [Bool.false_eq_true, if_false]
    rw [show kvBody (run 1) (parseElementKey k).tag (.obj kvs) =
        .ok (textBody (parseElementKey k).tag "[object Object]") by
      simp only [kvBody, hch, Bool.false_eq_true, if_false]
      rfl]

/-- Witness for C3: an anchor with one merged attribute and null children. -/
theorem claim3_witness :
    processElement (.obj [("a", .obj [("href", .str "/"), ("children", .null)])]) =
      .ok "<a href=\"/\"></a>" :=
  (claim3_amended_merge_requires_children.1 "a"
    [("href", .str "/"), ("children", .null)] "<a"
    (by decide) (by decide) rfl (by decide) rfl (by decide)).trans rfl

/-! ## List and scanner lemmas for symbolic keys -/

theorem takeWhile_all {p : Char → Bool} :
    ∀ l : List Char, (∀ c ∈ l, p c = true) → l.takeWhile p = l := by
  intro l h
  induction l with
  | nil => rfl
  | cons c r ih =>
    rw [List.takeWhile_cons_of_pos (h c (by simp))]
    rw [ih (fun d hd => h d (by simp [hd]))]

theorem getLast?_append_cons (a : List Char) (c : Char) (l : List Char) :
    (a ++ c :: l).getLast? = (c :: l).getLast? := by
  induction a with
  | nil => rfl
  | cons x a' ih =>
    have hne : a' ++ c :: l ≠ [] := by simp
    cases he : a' ++ c :: l with
    | nil => exact absurd he hne
    | cons y t =>
      simp only [List.cons_append, he, List.getLast?_cons_cons]
      rw [← he, ih]

theorem getLast?_mem : ∀ (l : List Char) (c : Char), l.getLast? = some c → c ∈ l := by
  intro l
  induction l with
  | nil => intro c h; simp at h
  | cons x t ih =>
    intro c h
    cases t with
    | nil => simp at h; simp [h]
    | cons y t' =>
      rw [List.getLast?_cons_cons] at h
      simp [ih c h]

theorem trimChars_nospace (l : List Char) (h : ∀ c ∈ l, isSpace c = false) :
    trimChars l = l := by
  have h1 : l.dropWhile isSpace = l := by
    cases l with
    | nil => rfl
    | cons c r => rw [List.dropWhile_cons_of_neg (by simp [h c (by simp)])]
  have h2 : l.reverse.dropWhile isSpace = l.reverse := by
    cases hr : l.reverse with
    | nil => rfl
    | cons c r =>
      rw [List.dropWhile_cons_of_neg]
      simp only [Bool.not_eq_true]
      exact h c (by rw [← List.mem_reverse, hr]; simp)
  rw [trimChars, h1, h2, List.reverse_reverse]

theorem trimChars_cons_space (l : List Char) :
    trimChars (' ' :: l) = trimChars l := by
  rw [trimChars, trimChars, List.dropWhile_cons_of_pos (by rfl)]

/-- `scanAttrs` consumes a run of name characters into the current name. -/
theorem scanAttrs_inName_run :
    ∀ (nm : List Char), (∀ c ∈ nm, isNameChar c = true) →
    ∀ (acc : String) (rest : List Char),
      scanAttrs (.inName acc) (nm ++ rest) = scanAttrs (.inName ⟨acc.data ++ nm⟩) rest := by
  intro nm
  induction nm with
  | nil => intro _ acc rest; simp
  | cons c nm' ih =>
    intro h acc rest
    rw [List.cons_append]
    show scanAttrs (.inName acc) (c :: (nm' ++ rest)) = _
    simp only [scanAttrs, h c (by simp), if_true, if_pos]
    rw [ih (fun d hd => h d (by simp [hd])) (acc.push c) rest]
    simp [String.data_push]

/-- An unquoted value free of whitespace and colons runs to the end of the
attribute string. -/
theorem scanAttrs_unq_run :
    ∀ (v : List Char), (∀ c ∈ v, isSpace c = false ∧ c ≠ ':') →
    ∀ (n acc : String),
      scanAttrs (.unq n acc) v = [(n, some ⟨acc.data ++ v⟩)] := by
  intro v
  induction v with
  | nil => intro _ n acc; simp [scanAttrs]
  | cons c v' ih =>
    intro h n acc
    obtain ⟨hs, hc⟩ := h c (by simp)
    show scanAttrs (.unq n acc) (c :: v') = _
    simp only [scanAttrs, hs, Bool.false_eq_true, if_false]
    rw [if_neg (by simp [hc])]
    rw [ih (fun d hd => h d (by simp [hd])) n (acc.push c)]
    simp [String.data_push]

/-- A double-quoted value free of `"` ends at its closing quote. -/
theorem scanAttrs_dq_run :
    ∀ (v : List Char), (∀ c ∈ v, c ≠ '"') →
    ∀ (n acc : String) (rest : List Char),
      scanAttrs (.dq n acc) (v ++ '"' :: rest) =
        (n, some ⟨acc.data ++ v⟩) :: scanAttrs .start rest := by
  intro v
  induction v with
  | nil => intro _ n acc rest; simp [scanAttrs]
  | cons c v' ih =>
    intro h n acc rest
    rw [List.cons_append]
    show scanAttrs (.dq n acc) (c :: (v' ++ '"' :: rest)) = _
    simp only [scanAttrs]
    rw [if_neg (by simpa using h c (by simp))]
    rw [ih (fun d hd => h d (by simp [hd])) n (acc.push c) rest]
    simp [String.data_push]

/-- A single-quoted value free of `'` ends at its closing quote. -/
theorem scanAttrs_sq_run :
    ∀ (v : List Char), (∀ c ∈ v, c ≠ '\'') →
    ∀ (n acc : String) (rest : List Char),
      scanAttrs (.sq n acc) (v ++ '\'' :: rest) =
        (n, some ⟨acc.data ++ v⟩) :: scanAttrs .start rest := by
  intro v
  induction v with
  | nil => intro _ n acc rest; simp [scanAttrs]
  | cons c v' ih =>
    intro h n acc rest
    rw [List.cons_append]
    show scanAttrs (.sq n acc) (c :: (v' ++ '\'' :: rest)) = _
    simp only [scanAttrs]
    rw [if_neg (by simpa using h c (by simp))]
    rw [ih (fun d hd => h d (by simp [hd])) n (acc.push c) rest]
    simp [String.data_push]

theorem idScan_none : ∀ l : List Char, (∀ c ∈ l, c ≠ '#') → idScan l = none := by
  intro l h
  induction l with
  | nil => rfl
  | cons c r ih =>
    show idScan (c :: r) = none
    simp only [idScan]
    rw [if_neg (h c (by simp))]
    exact ih (fun d hd => h d (by simp [hd]))

theorem idScan_hash_run (S : List Char) (hS : S ≠ [])
    (h : ∀ c ∈ S, isTagChar c = true) : idScan ('#' :: S) = some ⟨S⟩ := by
  cases S with
  | nil => exact absurd rfl hS
  | cons c r =>
    have hstep : idScan ('#' :: c :: r) =
        if isTagChar c = true then some ⟨c :: r.takeWhile isTagChar⟩
        else idScan (c :: r) := rfl
    rw [hstep, if_pos (h c (by simp))]
    rw [takeWhile_all r (fun d hd => h d (by simp [hd]))]

theorem classScan_plain_none :
    ∀ l : List Char, (∀ c ∈ l, c ≠ '.') → classScan .plain l = [] := by
  intro l h
  induction l with
  | nil => rfl
  | cons c r ih =>
    show classScan .plain (c :: r) = []
    simp only [classScan]
    rw [if_neg (by simpa using h c (by simp))]
    exact ih (fun d hd => h d (by simp [hd]))

theorem tagChar_not_space {c : Char} (h : isTagChar c = true) : isSpace c = false := by
  by_contra hs
  have hs' : isSpace c = true := Bool.ne_false_iff.mp hs
  simp only [isSpace, Bool.or_eq_true, decide_eq_true_eq] at hs'
  rcases hs' with ((h' | h') | h') | h' <;> (subst h'; revert h; decide)

theorem alpha_not_space {c : Char} (h : isNameChar c = true) : isSpace c = false := by
  by_contra hs
  have hs' : isSpace c = true := Bool.ne_false_iff.mp hs
  simp only [isSpace, Bool.or_eq_true, decide_eq_true_eq] at hs'
  rcases hs' with ((h' | h') | h') | h' <;> (subst h'; revert h; decide)

theorem tagChar_ne_dot {c : Char} (h : isTagChar c = true) : c ≠ '.' := by
  intro heq; subst heq; revert h; decide

theorem tagChar_ne_hash {c : Char} (h : isTagChar c = true) : c ≠ '#' := by
  intro heq; subst heq; revert h; decide

theorem tagChar_ne_colon {c : Char} (h : isTagChar c = true) : c ≠ ':' := by
  intro heq; subst heq; revert h; decide

theorem tagChar_ne_eq {c : Char} (h : isTagChar c = true) : c ≠ '=' := by
  intro heq; subst heq; revert h; decide

theorem tagChar_ne_quote {c : Char} (h : isTagChar c = true) : c ≠ '"' := by
  intro heq; subst heq; revert h; decide

theorem data_ne_nil {s : String} (h : s ≠ "") : s.data ≠ [] := by
  intro hd
  exact h (by cases s; simp at hd; simp [hd])

/-! ## Rendering an element with null content -/

/-- The body of a null value is empty and the element closes immediately:
the common skeleton behind the id/class claims. -/
theorem processElement_null_content (k : String) (s : String)
    (htag : (parseElementKey k).tag ≠ "")
    (hsc : SELF_CLOSING_TAGS.contains (parseElementKey k).tag = false)
    (hb : buildOpenTag (parseElementKey k) = .ok s) :
    processElement (.obj [(k, .null)]) =
      .ok (s ++ ">" ++ "</" ++ (parseElementKey k).tag ++ ">") := by
  obtain ⟨hk, hd⟩ := tag_ne_checks k htag
  refine processElement_eval _ 2 _ ?_ (by simp) (le_trans (by omega) (nodeFuel_ge _))
  show runStep (run 1) (.node (.obj [(k, .null)])) = _
  simp only [runStep]
  show runStep (run 0) (.kv k .null) = _
  simp only [runStep, if_neg hk, hd, Bool.false_eq_true, if_false, if_neg htag, hb]
  show (match kvMerge (run 0) s Node.null with
    | Except.error e => Except.error e
    | Except.ok html1 =>
      if SELF_CLOSING_TAGS.contains (parseElementKey k).tag = true then
        Except.ok (html1 ++ ">")
      else
        match kvBody (run 0) (parseElementKey k).tag Node.null with
        | Except.error e => Except.error e
        | Except.ok body =>
          Except.ok (html1 ++ ">" ++ body ++ "</" ++ (parseElementKey k).tag ++ ">")) = _
  rw [show kvMerge (run 0) s Node.null = .ok s from rfl]
  dsimp only
  rw [hsc]
  simp only [Bool.false_eq_true, if_false]
  rw [show kvBody (run 0) (parseElementKey k).tag Node.null = .ok "" from rfl]
  simp

/-! ## The id-replacement regex -/

theorem replaceFirstIdAttr_no_space :
    ∀ l : List Char, (∀ c ∈ l, c ≠ ' ') → replaceFirstIdAttr l = l := by
  intro l h
  induction l with
  | nil => rfl
  | cons c r ih =>
    show replaceFirstIdAttr (c :: r) = c :: r
    simp only [replaceFirstIdAttr]
    rw [if_neg]
    · rw [ih (fun d hd => h d (by simp [hd]))]
    · intro hcontra
      have hpre := (Bool.and_eq_true _ _).mp hcontra |>.1
      rw [List.isPrefixOf_iff_prefix] at hpre
      obtain ⟨t, ht⟩ := hpre
      have : c = ' ' := by
        have := congrArg (List.head?) ht
        simpa [idPat] using this.symm
      exact h c (by simp) this

theorem dropWhile_ne_quote (b : List Char) (hb : ∀ c ∈ b, c ≠ '"') (rest : List Char) :
    (b ++ '"' :: rest).dropWhile (· ≠ '"') = '"' :: rest := by
  induction b with
  | nil => simp [List.dropWhile_cons_of_neg]
  | cons c b' ih =>
    rw [List.cons_append, List.dropWhile_cons_of_pos (by simpa using hb c (by simp))]
    exact ih (fun d hd => hb d (by simp [hd]))

/-- Removing the first ` id="…"` from `a ++ " id=\"" ++ b ++ "\"" ++ rest`
when `a` has no spaces and `b` no quotes leaves `a ++ rest`. -/
theorem replaceFirstIdAttr_found :
    ∀ (a : List Char), (∀ c ∈ a, c ≠ ' ') →
    ∀ (b : List Char), (∀ c ∈ b, c ≠ '"') →
    ∀ (rest : List Char),
      replaceFirstIdAttr (a ++ (' ' :: 'i' :: 'd' :: '=' :: '"' :: (b ++ '"' :: rest))) =
        a ++ rest := by
  intro a ha
  induction a with
  | nil =>
    intro b hb rest
    show replaceFirstIdAttr (' ' :: 'i' :: 'd' :: '=' :: '"' :: (b ++ '"' :: rest)) = rest
    have hcond : (idPat.isPrefixOf (' ' :: 'i' :: 'd' :: '=' :: '"' :: (b ++ '"' :: rest)) &&
        ((' ' :: 'i' :: 'd' :: '=' :: '"' :: (b ++ '"' :: rest)).drop 5).contains '"') = true := by
      apply (Bool.and_eq_true _ _).mpr
      constructor
      · rw [List.isPrefixOf_iff_prefix]
        exact ⟨b ++ '"' :: rest, by simp [idPat]⟩
      · show ((b ++ '"' :: rest)).contains '"' = true
        simp
    simp only [replaceFirstIdAttr, hcond, if_true]
    show (List.dropWhile (fun x => x ≠ '"') (b ++ '"' :: rest)).drop 1 = rest
    rw [show (List.dropWhile (fun x => x ≠ '"') (b ++ '"' :: rest)) =
        (b ++ '"' :: rest).dropWhile (· ≠ '"') from rfl]
    rw [dropWhile_ne_quote b hb rest]
    rfl
  | cons c a' ih =>
    intro b hb rest
    rw [List.cons_append]
    show replaceFirstIdAttr (c :: (a' ++ ' ' :: 'i' :: 'd' :: '=' :: '"' :: (b ++ '"' :: rest))) = _
    simp only [replaceFirstIdAttr]
    rw [if_neg]
    · rw [ih (fun d hd => ha d (by simp [hd])) b hb rest]
      simp
    · intro hcontra
      have hpre := (Bool.and_eq_true _ _).mp hcontra |>.1
      rw [List.isPrefixOf_iff_prefix] at hpre
      obtain ⟨t, ht⟩ := hpre
      have : c = ' ' := by
        have := congrArg (List.head?) ht
        simpa [idPat] using this.symm
      exact ha c (by simp) this

/-! ## Parsing the canonical id-override declaration -/

theorem parse_id_attr_key (tag sh v : String)
    (htag : tag ≠ "") (htagc : ∀ c ∈ tag.data, isTagChar c = true)
    (hsh : sh ≠ "") (hshc : ∀ c ∈ sh.data, isTagChar c = true)
    (hv : v ≠ "") (hvc : ∀ c ∈ v.data, unqChar c) :
    parseElementKey (tag ++ "#" ++ sh ++ " id=" ++ v) =
      ⟨tag, sh, [], [("id", some v)]⟩ := by
  have hdata : (tag ++ "#" ++ sh ++ " id=" ++ v).data =
      (tag.data ++ '#' :: sh.data) ++ ' ' :: 'i' :: 'd' :: '=' :: v.data := by
    simp [String.data_append, List.append_assoc]
  obtain ⟨c0, V, hV⟩ : ∃ c0 V, v.data = c0 :: V := by
    cases hVe : v.data with
    | nil => exact absurd hVe (data_ne_nil hv)
    | cons c r => exact ⟨c, r, rfl⟩
  have hlast : ¬ ((tag.data ++ '#' :: sh.data) ++
      ' ' :: 'i' :: 'd' :: '=' :: v.data).getLast? = some ':' := by
    intro hcontra
    rw [hV] at hcontra
    rw [show ((tag.data ++ '#' :: sh.data) ++ ' ' :: 'i' :: 'd' :: '=' :: c0 :: V) =
        (((tag.data ++ '#' :: sh.data) ++ [' ', 'i', 'd', '=']) ++ c0 :: V) by simp,
      getLast?_append_cons] at hcontra
    have hmem := getLast?_mem _ _ hcontra
    rw [← hV] at hmem
    exact absurd rfl (hvc ':' hmem).2.1
  have hnonspace : ∀ c ∈ tag.data ++ '#' :: sh.data, (!isSpace c) = true := by
    intro c hc
    rcases List.mem_append.mp hc with h1 | h1
    · simp [tagChar_not_space (htagc c h1)]
    · rcases List.mem_cons.mp h1 with h2 | h2
      · subst h2; decide
      · simp [tagChar_not_space (hshc c h2)]
  have htp : List.takeWhile (fun c => !isSpace c)
      ((tag.data ++ '#' :: sh.data) ++ ' ' :: 'i' :: 'd' :: '=' :: v.data) =
      tag.data ++ '#' :: sh.data := by
    rw [List.takeWhile_append_of_pos hnonspace]
    rw [List.takeWhile_cons_of_neg (by decide)]
    simp
  have hempty : (tag.data ++ '#' :: sh.data).isEmpty = false := by
    cases tag.data <;> rfl
  have hbody : ∀ c ∈ 'i' :: 'd' :: '=' :: v.data, isSpace c = false := by
    intro c hc
    rcases List.mem_cons.mp hc with h1 | h1
    · subst h1; rfl
    rcases List.mem_cons.mp h1 with h2 | h2
    · subst h2; rfl
    rcases List.mem_cons.mp h2 with h3 | h3
    · subst h3; rfl
    · exact (hvc c h3).1
  have htrim : trimChars (' ' :: 'i' :: 'd' :: '=' :: v.data) =
      'i' :: 'd' :: '=' :: v.data := by
    rw [trimChars_cons_space, trimChars_nospace _ hbody]
  have hscan : scanAttrs .start ('i' :: 'd' :: '=' :: v.data) = [("id", some v)] := by
    rw [hV]
    rw [show scanAttrs .start ('i' :: 'd' :: '=' :: c0 :: V) =
        scanAttrs (.afterEq "id") (c0 :: V) from rfl]
    obtain ⟨hs0, hc0, hq0, hq0'⟩ := hvc c0 (by rw [hV]; simp)
    show scanAttrs (.afterEq "id") (c0 :: V) = _
    simp only [scanAttrs]
    rw [if_neg hq0, if_neg hq0', if_neg (by simp [hs0]), if_neg (by simp [hc0])]
    rw [scanAttrs_unq_run V (fun d hd => ⟨(hvc d (by rw [hV]; simp [hd])).1,
      (hvc d (by rw [hV]; simp [hd])).2.1⟩) "id" (String.singleton c0)]
    rw [show (String.singleton c0).data ++ V = v.data by rw [hV]; rfl]
  have hhr : List.takeWhile isTagChar (tag.data ++ '#' :: sh.data) = tag.data := by
    rw [List.takeWhile_append_of_pos htagc]
    rw [List.takeWhile_cons_of_neg (by decide)]
    simp
  simp only [parseElementKey, String.toList]
  rw [hdata, if_neg hlast, htp]
  rw [show ((tag.data ++ '#' :: sh.data) ++ ' ' :: 'i' :: 'd' :: '=' :: v.data).drop
      (tag.data ++ '#' :: sh.data).length = ' ' :: 'i' :: 'd' :: '=' :: v.data
    from List.drop_left _ _]
  rw [htrim, hscan, hhr]
  rw [show (tag.data ++ '#' :: sh.data).drop tag.data.length = '#' :: sh.data
    from List.drop_left _ _]
  rw [hempty]
  have hdelim : (!tag.data.isEmpty &&
      (match ('#' : Char) :: sh.data with
       | '#' :: _ => true
       | '.' :: _ => true
       | _ => false)) = true := by
    have : tag.data.isEmpty = false := by
      cases htd : tag.data with
      | nil => exact absurd htd (data_ne_nil htag)
      | cons a b => rfl
    simp [this]
  rw [hdelim]
  simp only [Bool.not_true, Bool.and_false, Bool.false_eq_true, if_false]
  rw [idScan_hash_run sh.data (data_ne_nil hsh) hshc]
  rw [classScan_plain_none ('#' :: sh.data) (by
    intro c hc
    rcases List.mem_cons.mp hc with h1 | h1
    · subst h1; decide
    · exact tagChar_ne_dot (hshc c h1))]
  rfl

theorem tagChar_ne_space {c : Char} (h : isTagChar c = true) : c ≠ ' ' := by
  intro heq; subst heq; revert h; decide

theorem buildOpenTag_id_attr (tag sh v : String)
    (htagc : ∀ c ∈ tag.data, isTagChar c = true)
    (hshc : ∀ c ∈ sh.data, isTagChar c = true)
    (hsh : sh ≠ "") :
    buildOpenTag ⟨tag, sh, [], [("id", some v)]⟩ =
      .ok ("<" ++ tag ++ " id=\"" ++ v ++ "\"") := by
  simp only [buildOpenTag]
  rw [if_pos hsh]
  rw [if_neg (show ¬((!List.isEmpty ([] : List String) ||
    List.any [("id", some v)] fun a => a.1 = "class") = true) by simp)]
  simp only [List.foldl_cons, List.foldl_nil]
  show Except.ok (applyAttr ("<" ++ tag ++ " id=\"" ++ sh ++ "\"") ("id", some v)) = _
  simp only [applyAttr, if_pos rfl]
  have hdata : ("<" ++ tag ++ " id=\"" ++ sh ++ "\"").toList =
      ('<' :: tag.data) ++ (' ' :: 'i' :: 'd' :: '=' :: '"' :: (sh.data ++ '"' :: [])) := by
    show ("<" ++ tag ++ " id=\"" ++ sh ++ "\"").data = _
    simp [String.data_append, List.append_assoc]
  rw [hdata]
  rw [replaceFirstIdAttr_found ('<' :: tag.data) (by
      intro c hc
      rcases List.mem_cons.mp hc with h1 | h1
      · subst h1; decide
      · exact tagChar_ne_space (htagc c h1))
    sh.data (fun c hc => tagChar_ne_quote (hshc c hc)) []]
  rw [show ('<' :: tag.data) ++ [] = ("<" ++ tag).data by simp [String.data_append]]
  rfl

/-- **C5.**  For every declaration carrying both a shorthand `#id` and an
explicit `id=` attribute (in the canonical form `tag#sh id=v` with a tag and
shorthand id made of tag characters and an unquoted attribute value), the
rendered element carries a single id attribute whose value is the explicit
`id=` value: the shorthand id is removed from the opening tag and the
explicit value interpolated in its place. -/
theorem claim5_explicit_id_overrides_shorthand (tag sh v : String)
    (htag : tag ≠ "") (htagc : ∀ c ∈ tag.data, isTagChar c = true)
    (hsh : sh ≠ "") (hshc : ∀ c ∈ sh.data, isTagChar c = true)
    (hv : v ≠ "") (hvc : ∀ c ∈ v.data, unqChar c)
    (hscl : SELF_CLOSING_TAGS.contains tag = false) :
    processElement (.obj [(tag ++ "#" ++ sh ++ " id=" ++ v, .null)]) =
      .ok ("<" ++ tag ++ " id=\"" ++ v ++ "\"" ++ ">" ++ "</" ++ tag ++ ">") := by
  have hp := parse_id_attr_key tag sh v htag htagc hsh hshc hv hvc
  have hb' := buildOpenTag_id_attr tag sh v htagc hshc hsh
  have hmain := processElement_null_content (tag ++ "#" ++ sh ++ " id=" ++ v)
    ("<" ++ tag ++ " id=\"" ++ v ++ "\"")
    (by rw [hp]; simpa using htag)
    (by rw [hp]; exact hscl)
    (by rw [hp]; exact hb')
  rw [hp] at hmain
  exact hmain

/-- Witness for C5: the spec's own example `render({'div#a id=b': null})`. -/
theorem claim5_witness :
    processElement (.obj [("div#a id=b", .null)]) = .ok "<div id=\"b\"></div>" :=
  (claim5_explicit_id_overrides_shorthand "div" "a" "b"
    (by decide) (by decide) (by decide) (by decide) (by decide)
    (by intro c hc; fin_cases hc; exact ⟨by decide, by decide, by decide, by decide⟩)
    (by decide)).trans rfl

/-! ## Class shorthand and space-joined token lemmas -/

theorem classShorthand_mem :
    ∀ (cs : List String) (c : Char), c ∈ (classShorthand cs).data →
      c = '.' ∨ ∃ s ∈ cs, c ∈ s.data := by
  intro cs
  induction cs with
  | nil => intro c hc; simp [classShorthand] at hc
  | cons s cs ih =>
    intro c hc
    rw [show (classShorthand (s :: cs)).data =
      '.' :: (s.data ++ (classShorthand cs).data) by simp [classShorthand, String.data_append]] at hc
    rcases List.mem_cons.mp hc with h1 | h1
    · exact Or.inl h1
    · rcases List.mem_append.mp h1 with h2 | h2
      · exact Or.inr ⟨s, by simp, h2⟩
      · rcases ih c h2 with h3 | ⟨t, ht, hc'⟩
        · exact Or.inl h3
        · exact Or.inr ⟨t, by simp [ht], hc'⟩

theorem spaceJoined_mem :
    ∀ (ts : List String) (c : Char), c ∈ (spaceJoined ts).data →
      c = ' ' ∨ ∃ t ∈ ts, c ∈ t.data := by
  intro ts
  induction ts with
  | nil => intro c hc; simp [spaceJoined] at hc
  | cons t ts ih =>
    intro c hc
    cases ts with
    | nil =>
      exact Or.inr ⟨t, by simp, by simpa [spaceJoined] using hc⟩
    | cons t2 ts2 =>
      rw [show (spaceJoined (t :: t2 :: ts2)).data =
        t.data ++ ' ' :: (spaceJoined (t2 :: ts2)).data by
          simp [spaceJoined, String.data_append]] at hc
      rcases List.mem_append.mp hc with h1 | h1
      · exact Or.inr ⟨t, by simp, h1⟩
      · rcases List.mem_cons.mp h1 with h2 | h2
        · exact Or.inl h2
        · rcases ih c h2 with h3 | ⟨u, hu, hc'⟩
          · exact Or.inl h3
          · exact Or.inr ⟨u, by simp [hu], hc'⟩

theorem classScan_inRun_end :
    ∀ (v : List Char), (∀ c ∈ v, isTagChar c = true) →
    ∀ acc : String, classScan (.inRun acc) v = [⟨acc.data ++ v⟩] := by
  intro v
  induction v with
  | nil => intro _ acc; simp [classScan]
  | cons c v' ih =>
    intro h acc
    show classScan (.inRun acc) (c :: v') = _
    simp only [classScan]
    rw [if_pos (h c (by simp))]
    rw [ih (fun d hd => h d (by simp [hd])) (acc.push c)]
    simp [String.data_push]

theorem classScan_inRun_dot :
    ∀ (v : List Char), (∀ c ∈ v, isTagChar c = true) →
    ∀ (acc : String) (rest : List Char),
      classScan (.inRun acc) (v ++ '.' :: rest) =
        ⟨acc.data ++ v⟩ :: classScan .dotSeen rest := by
  intro v
  induction v with
  | nil =>
    intro _ acc rest
    show classScan (.inRun acc) ('.' :: rest) = _
    simp only [classScan]
    rw [if_neg (by decide)]
    simp
  | cons c v' ih =>
    intro h acc rest
    rw [List.cons_append]
    show classScan (.inRun acc) (c :: (v' ++ '.' :: rest)) = _
    simp only [classScan]
    rw [if_pos (h c (by simp))]
    rw [ih (fun d hd => h d (by simp [hd])) (acc.push c) rest]
    simp [String.data_push]

/-- The class scanner in the just-past-a-dot state consumes `c1.c2…cn`
(the shorthand without its leading dot) into the class list. -/
theorem classScan_dotSeen_shorthand :
    ∀ (cs : List String) (c : String), c ≠ "" → (∀ d ∈ c.data, isTagChar d = true) →
      (∀ s ∈ cs, s ≠ "" ∧ ∀ d ∈ s.data, isTagChar d = true) →
      classScan .dotSeen (c.data ++ (classShorthand cs).data) = c :: cs := by
  intro cs
  induction cs with
  | nil =>
    intro c hc hcc _
    obtain ⟨d, D, hD⟩ : ∃ d D, c.data = d :: D := by
      cases hD : c.data with
      | nil => exact absurd hD (data_ne_nil hc)
      | cons d D => exact ⟨d, D, rfl⟩
    rw [hD]
    rw [show (classShorthand []).data = [] from rfl, List.append_nil]
    show classScan .dotSeen (d :: D) = _
    simp only [classScan]
    rw [if_pos (hcc d (by rw [hD]; simp))]
    rw [classScan_inRun_end D (fun e he => hcc e (by rw [hD]; simp [he]))]
    rw [show (String.singleton d).data ++ D = c.data by rw [hD]; rfl]
  | cons s cs ih =>
    intro c hc hcc hs
    obtain ⟨d, D, hD⟩ : ∃ d D, c.data = d :: D := by
      cases hD : c.data with
      | nil => exact absurd hD (data_ne_nil hc)
      | cons d D => exact ⟨d, D, rfl⟩
    rw [hD]
    rw [show (classShorthand (s :: cs)).data =
      '.' :: (s.data ++ (classShorthand cs).data) by simp [classShorthand, String.data_append]]
    show classScan .dotSeen (d :: (D ++ '.' :: (s.data ++ (classShorthand cs).data))) = _
    simp only [classScan]
    rw [if_pos (hcc d (by rw [hD]; simp))]
    rw [classScan_inRun_dot D (fun e he => hcc e (by rw [hD]; simp [he]))]
    rw [show (String.singleton d).data ++ D = c.data by rw [hD]; rfl]
    rw [ih s (hs s (by simp)).1 (hs s (by simp)).2
      (fun u hu => hs u (by simp [hu]))]

theorem splitSpace_nospace :
    ∀ (w : List Char), (∀ c ∈ w, c ≠ ' ') → splitSpace w = [⟨w⟩] := by
  intro w
  induction w with
  | nil => intro _; rfl
  | cons c w' ih =>
    intro h
    show splitSpace (c :: w') = _
    simp only [splitSpace]
    rw [if_neg (h c (by simp))]
    rw [ih (fun d hd => h d (by simp [hd]))]
    rfl

theorem splitSpace_token :
    ∀ (w : List Char), (∀ c ∈ w, c ≠ ' ') → ∀ rest,
      splitSpace (w ++ ' ' :: rest) = ⟨w⟩ :: splitSpace rest := by
  intro w
  induction w with
  | nil =>
    intro _ rest
    show splitSpace (' ' :: rest) = _
    simp [splitSpace]
  | cons c w' ih =>
    intro h rest
    rw [List.cons_append]
    show splitSpace (c :: (w' ++ ' ' :: rest)) = _
    simp only [splitSpace]
    rw [if_neg (h c (by simp))]
    rw [ih (fun d hd => h d (by simp [hd])) rest]
    rfl

/-- Splitting the canonical space-joined token list recovers the tokens. -/
theorem splitSpace_joined :
    ∀ (ts : List String), (∀ t ∈ ts, t ≠ "" ∧ ∀ c ∈ t.data, c ≠ ' ') →
      ts ≠ [] → splitSpace (spaceJoined ts).data = ts := by
  intro ts
  induction ts with
  | nil => intro _ h; exact absurd rfl h
  | cons t ts ih =>
    intro h _
    cases ts with
    | nil =>
      rw [show (spaceJoined [t]).data = t.data from rfl]
      rw [splitSpace_nospace t.data (h t (by simp)).2]
    | cons t2 ts2 =>
      rw [show (spaceJoined (t :: t2 :: ts2)).data =
        t.data ++ ' ' :: (spaceJoined (t2 :: ts2)).data by
          simp [spaceJoined, String.data_append]]
      rw [splitSpace_token t.data (h t (by simp)).2]
      rw [ih (fun u hu => h u (by simp [hu])) (by simp)]

theorem head?_nospace_dropWhile (l : List Char) (c : Char) (hh : l.head? = some c)
    (hc : isSpace c = false) : l.dropWhile isSpace = l := by
  cases l with
  | nil => rfl
  | cons d r =>
    have : d = c := by simpa using hh
    subst this
    rw [List.dropWhile_cons_of_neg (by simp [hc])]

/-- `trim` is the identity on a string whose first and last characters are
not whitespace. -/
theorem trimChars_first_last (l : List Char) (c d : Char)
    (hh : l.head? = some c) (hc : isSpace c = false)
    (hl : l.getLast? = some d) (hd : isSpace d = false) : trimChars l = l := by
  rw [trimChars, head?_nospace_dropWhile l c hh hc]
  rw [head?_nospace_dropWhile l.reverse d (by rw [List.head?_reverse]; exact hl) hd]
  rw [List.reverse_reverse]

theorem contains_eq_false_of_ne :
    ∀ (l : List Char) (a : Char), (∀ c ∈ l, c ≠ a) → l.contains a = false := by
  intro l a h
  induction l with
  | nil => rfl
  | cons c r ih =>
    show (c :: r).contains a = false
    have hca : (a == c) = false := by
      have := h c (by simp)
      simp [BEq.beq]
      exact fun hh => absurd hh.symm this
    simp only [List.contains_cons, hca, Bool.false_or]
    exact ih (fun d hd => h d (by simp [hd]))

theorem parse_class_key (tag : String) (cs ts : List String)
    (htag : tag ≠ "") (htagc : ∀ c ∈ tag.data, isTagChar c = true)
    (hcs : ∀ s ∈ cs, s ≠ "" ∧ ∀ d ∈ s.data, isTagChar d = true)
    (hts : ∀ t ∈ ts, t ≠ "" ∧ ∀ c ∈ t.data, c ≠ ' ' ∧ c ≠ '"') :
    parseElementKey (tag ++ classShorthand cs ++ " class=\"" ++ spaceJoined ts ++ "\"") =
      ⟨tag, "", cs, [("class", some (spaceJoined ts))]⟩ := by
  have hdata : (tag ++ classShorthand cs ++ " class=\"" ++ spaceJoined ts ++ "\"").data =
      (tag.data ++ (classShorthand cs).data) ++
        ' ' :: 'c' :: 'l' :: 'a' :: 's' :: 's' :: '=' :: '"' ::
          ((spaceJoined ts).data ++ ['"']) := by
    simp [String.data_append, List.append_assoc]
  have hJq : ∀ c ∈ (spaceJoined ts).data, c ≠ '"' := by
    intro c hc
    rcases spaceJoined_mem ts c hc with h1 | ⟨t, ht, hc'⟩
    · subst h1; decide
    · exact ((hts t ht).2 c hc').2
  have hlast : ¬ ((tag.data ++ (classShorthand cs).data) ++
      ' ' :: 'c' :: 'l' :: 'a' :: 's' :: 's' :: '=' :: '"' ::
        ((spaceJoined ts).data ++ ['"'])).getLast? = some ':' := by
    intro hcontra
    rw [show ((tag.data ++ (classShorthand cs).data) ++
        ' ' :: 'c' :: 'l' :: 'a' :: 's' :: 's' :: '=' :: '"' ::
          ((spaceJoined ts).data ++ ['"'])) =
        (((tag.data ++ (classShorthand cs).data) ++
          ' ' :: 'c' :: 'l' :: 'a' :: 's' :: 's' :: '=' :: '"' ::
            (spaceJoined ts).data) ++ '"' :: []) by simp,
      getLast?_append_cons] at hcontra
    simp at hcontra
  have hnonspace : ∀ c ∈ tag.data ++ (classShorthand cs).data, (!isSpace c) = true := by
    intro c hc
    rcases List.mem_append.mp hc with h1 | h1
    · simp [tagChar_not_space (htagc c h1)]
    · rcases classShorthand_mem cs c h1 with h2 | ⟨u, hu, hc'⟩
      · subst h2; decide
      · simp [tagChar_not_space ((hcs u hu).2 c hc')]
  have htp : List.takeWhile (fun c => !isSpace c)
      ((tag.data ++ (classShorthand cs).data) ++
        ' ' :: 'c' :: 'l' :: 'a' :: 's' :: 's' :: '=' :: '"' ::
          ((spaceJoined ts).data ++ ['"'])) = tag.data ++ (classShorthand cs).data := by
    rw [List.takeWhile_append_of_pos hnonspace]
    rw [List.takeWhile_cons_of_neg (by decide)]
    simp
  have hempty : (tag.data ++ (classShorthand cs).data).isEmpty = false := by
    cases htd : tag.data with
    | nil => exact absurd htd (data_ne_nil htag)
    | cons a b => rfl
  have htrim : trimChars (' ' :: 'c' :: 'l' :: 'a' :: 's' :: 's' :: '=' :: '"' ::
      ((spaceJoined ts).data ++ ['"'])) =
      'c' :: 'l' :: 'a' :: 's' :: 's' :: '=' :: '"' ::
        ((spaceJoined ts).data ++ ['"']) := by
    rw [trimChars_cons_space]
    refine trimChars_first_last _ 'c' '"' rfl rfl ?_ rfl
    rw [show ('c' :: 'l' :: 'a' :: 's' :: 's' :: '=' :: '"' ::
        ((spaceJoined ts).data ++ ['"'])) =
        (('c' :: 'l' :: 'a' :: 's' :: 's' :: '=' :: '"' ::
          (spaceJoined ts).data) ++ '"' :: []) by simp,
      getLast?_append_cons]
    rfl
  have hscan : scanAttrs .start ('c' :: 'l' :: 'a' :: 's' :: 's' :: '=' :: '"' ::
      ((spaceJoined ts).data ++ ['"'])) = [("class", some (spaceJoined ts))] := by
    rw [show scanAttrs .start ('c' :: 'l' :: 'a' :: 's' :: 's' :: '=' :: '"' ::
        ((spaceJoined ts).data ++ ['"'])) =
        scanAttrs (.dq "class" "") ((spaceJoined ts).data ++ '"' :: []) from rfl]
    rw [scanAttrs_dq_run (spaceJoined ts).data hJq "class" "" []]
    rfl
  simp only [parseElementKey, String.toList]
  rw [hdata, if_neg hlast, htp]
  rw [show ((tag.data ++ (classShorthand cs).data) ++
      ' ' :: 'c' :: 'l' :: 'a' :: 's' :: 's' :: '=' :: '"' ::
        ((spaceJoined ts).data ++ ['"'])).drop
      (tag.data ++ (classShorthand cs).data).length =
      ' ' :: 'c' :: 'l' :: 'a' :: 's' :: 's' :: '=' :: '"' ::
        ((spaceJoined ts).data ++ ['"'])
    from List.drop_left _ _]
  rw [htrim, hscan, hempty]
  cases cs with
  | nil =>
    rw [show (classShorthand []).data = [] from rfl, List.append_nil]
    rw [takeWhile_all tag.data htagc]
    rw [show tag.data.drop tag.data.length = [] from by simp]
    rw [contains_eq_false_of_ne tag.data '=' (fun c hc => tagChar_ne_eq (htagc c hc))]
    rfl
  | cons c cs' =>
    rw [show (classShorthand (c :: cs')).data =
      '.' :: (c.data ++ (classShorthand cs').data) by
        simp [classShorthand, String.data_append]]
    rw [List.takeWhile_append_of_pos htagc]
    rw [List.takeWhile_cons_of_neg (by decide)]
    rw [List.append_nil]
    rw [show (tag.data ++ '.' :: (c.data ++ (classShorthand cs').data)).drop
        tag.data.length = '.' :: (c.data ++ (classShorthand cs').data)
      from List.drop_left _ _]
    have hdelim : (!tag.data.isEmpty &&
        (match ('.' : Char) :: (c.data ++ (classShorthand cs').data) with
         | '#' :: _ => true
         | '.' :: _ => true
         | _ => false)) = true := by
      have : tag.data.isEmpty = false := by
        cases htd : tag.data with
        | nil => exact absurd htd (data_ne_nil htag)
        | cons a b => rfl
      simp [this]
    rw [hdelim]
    simp only [Bool.not_true, Bool.and_false, Bool.false_eq_true, if_false]
    rw [idScan_none ('.' :: (c.data ++ (classShorthand cs').data)) (by
      intro d hd
      rcases List.mem_cons.mp hd with h1 | h1
      · subst h1; decide
      · rcases List.mem_append.mp h1 with h2 | h2
        · exact tagChar_ne_hash ((hcs c (by simp)).2 d h2)
        · rcases classShorthand_mem cs' d h2 with h3 | ⟨u, hu, hd'⟩
          · subst h3; decide
          · exact tagChar_ne_hash ((hcs u (by simp [hu])).2 d hd'))]
    rw [show classScan .plain ('.' :: (c.data ++ (classShorthand cs').data)) =
        classScan .dotSeen (c.data ++ (classShorthand cs').data) by
      simp [classScan]]
    rw [classScan_dotSeen_shorthand cs' c (hcs c (by simp)).1 (hcs c (by simp)).2
      (fun u hu => hcs u (by simp [hu]))]
    rfl

theorem buildOpenTag_class (tag : String) (cs ts : List String)
    (hts : ∀ t ∈ ts, t ≠ "" ∧ ∀ c ∈ t.data, c ≠ ' ' ∧ c ≠ '"')
    (hne : (cs ++ ts) ≠ []) :
    buildOpenTag ⟨tag, "", cs, [("class", some (spaceJoined ts))]⟩ =
      .ok ("<" ++ tag ++ " class=\"" ++ String.intercalate " " (cs ++ ts) ++ "\"") := by
  have hsplit : (splitSpace (spaceJoined ts).data).filter (fun x => x ≠ "") = ts := by
    cases ts with
    | nil => rfl
    | cons t ts' =>
      rw [splitSpace_joined (t :: ts') (fun u hu => ⟨(hts u hu).1,
        fun c hc => ((hts u hu).2 c hc).1⟩) (by simp)]
      rw [List.filter_eq_self.mpr]
      intro u hu
      simpa using (hts u hu).1
  simp only [buildOpenTag]
  rw [if_neg (show ¬(("" : String) ≠ "") by simp)]
  rw [if_pos (show (!List.isEmpty cs ||
    List.any [("class", some (spaceJoined ts))] fun a => a.1 = "class") = true by simp)]
  rw [show List.find? (fun a => decide (a.1 = "class"))
      [("class", some (spaceJoined ts))] = some ("class", some (spaceJoined ts))
    from rfl]
  rw [show removeFirstClass [("class", some (spaceJoined ts))] = [] from rfl]
  simp only [List.foldl_nil]
  rw [show (String.toList (spaceJoined ts)) = (spaceJoined ts).data from rfl]
  rw [hsplit]
  rw [if_pos (show (!List.isEmpty (cs ++ ts)) = true by simpa using hne)]

/-- **C6.**  For every declaration carrying shorthand classes and a `class=`
attribute (canonical form `tag.c1….cn class="t1 t2 …"`), the emitted class
attribute is the concatenation of the shorthand classes in order followed by
the space-split tokens of the `class=` value, with no deduplication. -/
theorem claim6_classes_concatenate_undeduplicated (tag : String) (cs ts : List String)
    (htag : tag ≠ "") (htagc : ∀ c ∈ tag.data, isTagChar c = true)
    (hcs : ∀ s ∈ cs, s ≠ "" ∧ ∀ d ∈ s.data, isTagChar d = true)
    (hts : ∀ t ∈ ts, t ≠ "" ∧ ∀ c ∈ t.data, c ≠ ' ' ∧ c ≠ '"')
    (hne : (cs ++ ts) ≠ [])
    (hscl : SELF_CLOSING_TAGS.contains tag = false) :
    processElement (.obj [(tag ++ classShorthand cs ++ " class=\"" ++
        spaceJoined ts ++ "\"", .null)]) =
      .ok ("<" ++ tag ++ " class=\"" ++ String.intercalate " " (cs ++ ts) ++ "\"" ++
        ">" ++ "</" ++ tag ++ ">") := by
  have hp := parse_class_key tag cs ts htag htagc hcs hts
  have hb' := buildOpenTag_class tag cs ts hts hne
  have hmain := processElement_null_content
    (tag ++ classShorthand cs ++ " class=\"" ++ spaceJoined ts ++ "\"")
    ("<" ++ tag ++ " class=\"" ++ String.intercalate " " (cs ++ ts) ++ "\"")
    (by rw [hp]; simpa using htag)
    (by rw [hp]; exact hscl)
    (by rw [hp]; exact hb')
  rw [hp] at hmain
  exact hmain

/-- Witness for C6: the spec's own example `render({'div.x class="x y"': null})`,
with the repeated class `x` preserved. -/
theorem claim6_witness :
    processElement (.obj [("div.x class=\"x y\"", .null)]) =
      .ok "<div class=\"x x y\"></div>" :=
  (claim6_classes_concatenate_undeduplicated "div" ["x"] ["x", "y"]
    (by decide) (by decide)
    (by intro s hs; fin_cases hs; exact ⟨by decide, by decide⟩)
    (by intro t ht; fin_cases ht <;> exact ⟨by decide, by decide⟩)
    (by simp) (by decide)).trans rfl

/-! ## Parsing a single single-quoted attribute -/

/-- A key of the form `tag name='v'` parses to a bare tag with the single
attribute `name` holding the raw value `v` (which may contain spaces, double
quotes or ampersands — anything but a single quote). -/
theorem parse_sq_attr (tag name v : String)
    (htag : tag ≠ "") (htagc : ∀ c ∈ tag.data, isTagChar c = true)
    (hname : name ≠ "") (hnamec : ∀ c ∈ name.data, isNameChar c = true)
    (hvq : ∀ c ∈ v.data, c ≠ '\'') :
    parseElementKey (tag ++ " " ++ name ++ "='" ++ v ++ "'") =
      ⟨tag, "", [], [(name, some v)]⟩ := by
  have hdata : (tag ++ " " ++ name ++ "='" ++ v ++ "'").data =
      tag.data ++ ' ' :: (name.data ++ '=' :: '\'' :: (v.data ++ ['\''])) := by
    simp [String.data_append, List.append_assoc]
  obtain ⟨c0, N, hN⟩ : ∃ c0 N, name.data = c0 :: N := by
    cases hNe : name.data with
    | nil => exact absurd hNe (data_ne_nil hname)
    | cons c r => exact ⟨c, r, rfl⟩
  have hlast : ¬ (tag.data ++
      ' ' :: (name.data ++ '=' :: '\'' :: (v.data ++ ['\'']))).getLast? = some ':' := by
    intro hcontra
    rw [show (tag.data ++ ' ' :: (name.data ++ '=' :: '\'' :: (v.data ++ ['\'']))) =
        ((tag.data ++ ' ' :: (name.data ++ '=' :: '\'' :: v.data)) ++ '\'' :: []) by simp,
      getLast?_append_cons] at hcontra
    simp at hcontra
  have hnonspace : ∀ c ∈ tag.data, (!isSpace c) = true := by
    intro c hc
    simp [tagChar_not_space (htagc c hc)]
  have htp : List.takeWhile (fun c => !isSpace c)
      (tag.data ++ ' ' :: (name.data ++ '=' :: '\'' :: (v.data ++ ['\'']))) =
      tag.data := by
    rw [List.takeWhile_append_of_pos hnonspace]
    rw [List.takeWhile_cons_of_neg (by decide)]
    simp
  have hempty : tag.data.isEmpty = false := by
    cases htd : tag.data with
    | nil => exact absurd htd (data_ne_nil htag)
    | cons a b => rfl
  have htrim : trimChars (' ' :: (name.data ++ '=' :: '\'' :: (v.data ++ ['\'']))) =
      name.data ++ '=' :: '\'' :: (v.data ++ ['\'']) := by
    rw [trimChars_cons_space]
    refine trimChars_first_last _ c0 '\'' ?_ (alpha_not_space (hnamec c0 (by rw [hN]; simp)))
      ?_ rfl
    · rw [hN]; rfl
    · rw [show (name.data ++ '=' :: '\'' :: (v.data ++ ['\''])) =
          ((name.data ++ '=' :: '\'' :: v.data) ++ '\'' :: []) by simp,
        getLast?_append_cons]
      rfl
  have hscan : scanAttrs .start (name.data ++ '=' :: '\'' :: (v.data ++ ['\''])) =
      [(name, some v)] := by
    rw [hN]
    show scanAttrs .start (c0 :: (N ++ '=' :: '\'' :: (v.data ++ ['\'']))) = _
    have hs0 : isSpace c0 = false := alpha_not_space (hnamec c0 (by rw [hN]; simp))
    have hn0 : isNameChar c0 = true := hnamec c0 (by rw [hN]; simp)
    simp only [scanAttrs, hs0, Bool.false_eq_true, if_false, hn0, if_true, if_pos]
    rw [scanAttrs_inName_run N (fun d hd => hnamec d (by rw [hN]; simp [hd]))
      (String.singleton c0) ('=' :: '\'' :: (v.data ++ ['\'']))]
    rw [show (String.singleton c0).data ++ N = name.data from by rw [hN]; rfl]
    rw [show scanAttrs (.inName ⟨name.data⟩) ('=' :: ('\'' :: (v.data ++ ['\'']))) =
        scanAttrs (.sq ⟨name.data⟩ "") (v.data ++ '\'' :: []) from rfl]
    rw [scanAttrs_sq_run v.data hvq ⟨name.data⟩ "" []]
    rfl
  simp only [parseElementKey, String.toList]
  rw [hdata, if_neg hlast, htp]
  rw [show (tag.data ++ ' ' :: (name.data ++ '=' :: '\'' :: (v.data ++ ['\'']))).drop
      tag.data.length = ' ' :: (name.data ++ '=' :: '\'' :: (v.data ++ ['\'']))
    from List.drop_left _ _]
  rw [htrim, hscan, hempty]
  rw [takeWhile_all tag.data htagc]
  rw [show tag.data.drop tag.data.length = [] from by simp]
  rw [contains_eq_false_of_ne tag.data '=' (fun c hc => tagChar_ne_eq (htagc c hc))]
  rfl

/-! ## Opening tags with a single explicit attribute -/

/-- An explicit `id=` attribute with no shorthand id: the value is spliced in
verbatim (`applyAttr` interpolates it raw). -/
theorem buildOpenTag_id_only (tag v : String)
    (htagc : ∀ c ∈ tag.data, isTagChar c = true) :
    buildOpenTag ⟨tag, "", [], [("id", some v)]⟩ =
      .ok ("<" ++ tag ++ " id=\"" ++ v ++ "\"") := by
  simp only [buildOpenTag]
  rw [if_neg (show ¬(("" : String) ≠ "") by simp)]
  rw [if_neg (show ¬((!List.isEmpty ([] : List String) ||
    List.any [("id", some v)] fun a => a.1 = "class") = true) by simp)]
  simp only [List.foldl_cons, List.foldl_nil]
  show Except.ok (applyAttr ("<" ++ tag) ("id", some v)) = _
  simp only [applyAttr, if_pos rfl]
  rw [show ("<" ++ tag).toList = '<' :: tag.data from by
    show ("<" ++ tag).data = _; simp [String.data_append]]
  rw [replaceFirstIdAttr_no_space ('<' :: tag.data) (by
    intro c hc
    rcases List.mem_cons.mp hc with h1 | h1
    · subst h1; decide
    · exact tagChar_ne_space (htagc c h1))]
  rw [show ('<' :: tag.data) = ("<" ++ tag).data from by simp [String.data_append]]
  rfl

/-- An explicit `class=` attribute with no shorthand classes: a non-empty
space-free value is spliced in verbatim. -/
theorem buildOpenTag_class_only (tag v : String)
    (hv : v ≠ "") (hvs : ∀ c ∈ v.data, c ≠ ' ') :
    buildOpenTag ⟨tag, "", [], [("class", some v)]⟩ =
      .ok ("<" ++ tag ++ " class=\"" ++ v ++ "\"") := by
  have hsplit : (splitSpace v.data).filter (fun x => x ≠ "") = [v] := by
    rw [splitSpace_nospace v.data hvs]
    rw [show (⟨v.data⟩ : String) = v from rfl]
    exact List.filter_eq_self.mpr (by intro u hu; simp at hu; subst hu; simpa using hv)
  simp only [buildOpenTag]
  rw [if_neg (show ¬(("" : String) ≠ "") by simp)]
  rw [if_pos (show (!List.isEmpty ([] : List String) ||
    List.any [("class", some v)] fun a => a.1 = "class") = true by simp)]
  rw [show List.find? (fun a => decide (a.1 = "class")) [("class", some v)] =
    some ("class", some v) from rfl]
  rw [show removeFirstClass [("class", some v)] = ([] : List (String × AttrVal)) from rfl]
  simp only [List.foldl_nil]
  rw [show (String.toList v) = v.data from rfl]
  rw [hsplit]
  rw [show ([] : List String) ++ [v] = [v] from rfl]
  rw [if_pos (show (!List.isEmpty [v]) = true from rfl)]
  rw [show String.intercalate " " [v] = v from rfl]

/-- Any other explicit attribute with a non-empty value is attribute-escaped
before interpolation. -/
theorem buildOpenTag_other_attr (tag name v : String)
    (hnid : name ≠ "id") (hncl : name ≠ "class") (hv : v ≠ "") :
    buildOpenTag ⟨tag, "", [], [(name, some v)]⟩ =
      .ok ("<" ++ tag ++ " " ++ name ++ "=\"" ++ escapeAttribute v ++ "\"") := by
  obtain ⟨c0, V, hV⟩ : ∃ c0 V, v = ⟨c0 :: V⟩ := by
    cases hVe : v.data with
    | nil => exact absurd hVe (data_ne_nil hv)
    | cons c r => exact ⟨c, r, by rw [show v = ⟨v.data⟩ from rfl, hVe]⟩
  simp only [buildOpenTag]
  rw [if_neg (show ¬(("" : String) ≠ "") by simp)]
  rw [if_neg (show ¬((!List.isEmpty ([] : List String) ||
    List.any [(name, some v)] fun a => a.1 = "class") = true) by simp [hncl])]
  simp only [List.foldl_cons, List.foldl_nil]
  show Except.ok (applyAttr ("<" ++ tag) (name, some v)) = _
  rw [hV]
  simp only [applyAttr, if_neg hnid, if_neg hncl]
  rfl

/-- **C10.**  The values of explicit `id=` and `class=` attributes are
interpolated into the emitted `id="…"` / `class="…"` output raw — without
passing through the attribute escaper — while every other attribute value is
attribute-escaped.  The family `tag name='v'` (single-quoted value, so `v`
may contain `&` and `"`) renders the value verbatim when the attribute is
`id` or `class`, and as `escapeAttribute v` for any other attribute name. -/
theorem claim10_raw_id_class_interpolation (tag name v : String)
    (htag : tag ≠ "") (htagc : ∀ c ∈ tag.data, isTagChar c = true)
    (hscl : SELF_CLOSING_TAGS.contains tag = false)
    (hname : name ≠ "") (hnamec : ∀ c ∈ name.data, isNameChar c = true)
    (hnid : name ≠ "id") (hncl : name ≠ "class")
    (hv : v ≠ "") (hvq : ∀ c ∈ v.data, c ≠ '\'') (hvs : ∀ c ∈ v.data, c ≠ ' ') :
    processElement (.obj [(tag ++ " " ++ "id" ++ "='" ++ v ++ "'", .null)]) =
      .ok ("<" ++ tag ++ " id=\"" ++ v ++ "\"" ++ ">" ++ "</" ++ tag ++ ">") ∧
    processElement (.obj [(tag ++ " " ++ "class" ++ "='" ++ v ++ "'", .null)]) =
      .ok ("<" ++ tag ++ " class=\"" ++ v ++ "\"" ++ ">" ++ "</" ++ tag ++ ">") ∧
    processElement (.obj [(tag ++ " " ++ name ++ "='" ++ v ++ "'", .null)]) =
      .ok ("<" ++ tag ++ " " ++ name ++ "=\"" ++ escapeAttribute v ++ "\"" ++ ">" ++
        "</" ++ tag ++ ">") := by
  refine ⟨?_, ?_, ?_⟩
  · have hp := parse_sq_attr tag "id" v htag htagc (by decide) (by decide) hvq
    have hb' := buildOpenTag_id_only tag v htagc
    have hmain := processElement_null_content (tag ++ " " ++ "id" ++ "='" ++ v ++ "'")
      ("<" ++ tag ++ " id=\"" ++ v ++ "\"")
      (by rw [hp]; simpa using htag)
      (by rw [hp]; exact hscl)
      (by rw [hp]; exact hb')
    rw [hp] at hmain
    exact hmain
  · have hp := parse_sq_attr tag "class" v htag htagc (by decide) (by decide) hvq
    have hb' := buildOpenTag_class_only tag v hv hvs
    have hmain := processElement_null_content (tag ++ " " ++ "class" ++ "='" ++ v ++ "'")
      ("<" ++ tag ++ " class=\"" ++ v ++ "\"")
      (by rw [hp]; simpa using htag)
      (by rw [hp]; exact hscl)
      (by rw [hp]; exact hb')
    rw [hp] at hmain
    exact hmain
  · have hp := parse_sq_attr tag name v htag htagc hname hnamec hvq
    have hb' := buildOpenTag_other_attr tag name v hnid hncl hv
    have hmain := processElement_null_content (tag ++ " " ++ name ++ "='" ++ v ++ "'")
      ("<" ++ tag ++ " " ++ name ++ "=\"" ++ escapeAttribute v ++ "\"")
      (by rw [hp]; simpa using htag)
      (by rw [hp]; exact hscl)
      (by rw [hp]; exact hb')
    rw [hp] at hmain
    exact hmain

/-- Witness for C10: the value `a&"b` (with an ampersand and a double quote)
appears verbatim in `id=` and `class=` output but escaped in `title=`. -/
theorem claim10_witness :
    processElement (.obj [("div id='a&\"b'", .null)]) =
      .ok "<div id=\"a&\"b\"></div>" ∧
    processElement (.obj [("div class='a&\"b'", .null)]) =
      .ok "<div class=\"a&\"b\"></div>" ∧
    processElement (.obj [("div title='a&\"b'", .null)]) =
      .ok "<div title=\"a&amp;&quot;b\"></div>" := by
  have h := claim10_raw_id_class_interpolation "div" "title" "a&\"b"
    (by decide) (by decide) (by decide) (by decide) (by decide) (by decide)
    (by decide) (by decide) (by decide) (by decide)
  exact ⟨h.1.trans rfl, h.2.1.trans rfl, h.2.2.trans rfl⟩

-- helper for the string-declaration claim

/-- One interpreter step on a key/value task depends on its recursive entry
only through the attribute merge and the body rendering: callbacks that agree
there produce the same step. -/
theorem runStep_kv_congr (r r' : Task → Except Err String) (k : String) (v : Node)
    (hm : ∀ h0 : String, kvMerge r h0 v = kvMerge r' h0 v)
    (hb : kvBody r (parseElementKey k).tag v = kvBody r' (parseElementKey k).tag v) :
    runStep r (.kv k v) = runStep r' (.kv k v) := by
  by_cases hk : k = ""
  · simp only [runStep, if_pos hk]
  · simp only [runStep, if_neg hk]
    by_cases hdt : (jsStartsWith k "\"!DOCTYPE" || jsStartsWith k "!DOCTYPE") = true
    · rw [if_pos hdt, if_pos hdt]
    · rw [if_neg hdt, if_neg hdt]
      by_cases htg : (parseElementKey k).tag = ""
      · rw [if_pos htg, if_pos htg]
      · rw [if_neg htg, if_neg htg]
        cases hbo : buildOpenTag (parseElementKey k) with
        | error e => rfl
        | ok html0 =>
          dsimp only
          rw [hm html0]
          cases hme : kvMerge r' html0 v with
          | error e => rfl
          | ok html1 =>
            dsimp only
            by_cases hsc : SELF_CLOSING_TAGS.contains (parseElementKey k).tag = true
            · rw [if_pos hsc, if_pos hsc]
            · rw [if_neg hsc, if_neg hsc]
              rw [hb]

/-- **C7.**  The string-declaration normalizer applies its rules in priority
order: (1) a string ending in `:` is a declaration with null content, the key
trimmed; (2)-(4) otherwise the earliest occurrence of `: "` or `: '` splits
declaration from quoted content (the earlier index wins; the two patterns can
never tie since they differ at their third character, and the code prefers
the double-quote index on the impossible tie), the content passing through
quote stripping; (5)-(6) otherwise the first colon-whitespace match splits
the string unless the declaration half contains `//`; (7)-(8) a string that
normalizes to a declaration renders exactly like the corresponding key/value
element and a plain string renders as escaped text; and the spec's scenarios
`convert(['h1: "Hello World"']) = '<h1>Hello World</h1>'` and
`convert(['br:']) = '<br>'` hold. -/
theorem claim7_normalizer_priority :
    (∀ s : String, s.toList.getLast? = some ':' →
      normalizeString s = .decl ⟨trimChars s.toList.dropLast⟩ none) ∧
    (∀ (s : String) (d q : Nat), s.toList.getLast? ≠ some ':' →
      findSub (": \"").toList s.toList = some d →
      findSub (": '").toList s.toList = some q →
      normalizeString s = .decl ⟨s.toList.take (min d q)⟩
        (some (stripQuoteContent ⟨s.toList.drop (min d q + 2)⟩))) ∧
    (∀ (s : String) (d : Nat), s.toList.getLast? ≠ some ':' →
      findSub (": \"").toList s.toList = some d →
      findSub (": '").toList s.toList = none →
      normalizeString s = .decl ⟨s.toList.take d⟩
        (some (stripQuoteContent ⟨s.toList.drop (d + 2)⟩))) ∧
    (∀ (s : String) (q : Nat), s.toList.getLast? ≠ some ':' →
      findSub (": \"").toList s.toList = none →
      findSub (": '").toList s.toList = some q →
      normalizeString s = .decl ⟨s.toList.take q⟩
        (some (stripQuoteContent ⟨s.toList.drop (q + 2)⟩))) ∧
    (∀ (s g1 g2 : String), s.toList.getLast? ≠ some ':' →
      findSub (": \"").toList s.toList = none →
      findSub (": '").toList s.toList = none →
      simpleMatch s = some (g1, g2) →
      normalizeString s =
        (if (findSub "//".toList g1.toList).isSome then .plain
         else .decl g1 (some g2))) ∧
    (∀ s : String, s.toList.getLast? ≠ some ':' →
      findSub (": \"").toList s.toList = none →
      findSub (": '").toList s.toList = none →
      simpleMatch s = none →
      normalizeString s = .plain) ∧
    (∀ (s k : String) (c : Option String), normalizeString s = .decl k c →
      processElement (.str s) =
        processElement (.obj [(k, match c with
          | none => Node.null
          | some t => Node.str t)])) ∧
    (∀ s : String, normalizeString s = .plain →
      processElement (.str s) = .ok (escapeHtml s)) ∧
    convertToHtml (.arr [.str "h1: \"Hello World\""]) = .ok "<h1>Hello World</h1>" ∧
    convertToHtml (.arr [.str "br:"]) = .ok "<br>" := by
  refine ⟨?_, ?_, ?_, ?_, ?_, ?_, ?_, ?_, ?_, ?_⟩
  · intro s h
    simp only [normalizeString, if_pos h]
  · intro s d q h hd hq
    simp only [normalizeString]
    rw [if_neg h, hd, hq]
    dsimp only
    by_cases hdq : d < q
    · rw [if_pos hdq]
      dsimp only
      rw [Nat.min_eq_left hdq.le]
    · rw [if_neg hdq]
      dsimp only
      rw [Nat.min_eq_right (Nat.le_of_not_lt hdq)]
  · intro s d h hd hq
    simp only [normalizeString]
    rw [if_neg h, hd, hq]
  · intro s q h hd hq
    simp only [normalizeString]
    rw [if_neg h, hd, hq]
  · intro s g1 g2 h hd hq hsm
    simp only [normalizeString]
    rw [if_neg h, hd, hq]
    dsimp only
    rw [hsm]
  · intro s h hd hq hsm
    simp only [normalizeString]
    rw [if_neg h, hd, hq]
    dsimp only
    rw [hsm]
  · intro s k c h
    cases c with
    | none =>
      rw [processElement_run (.str s) 4 (by simp [nodeFuel]),
        processElement_run (.obj [(k, Node.null)]) 9 (by simp [nodeFuel])]
      have hL : run 4 (.node (.str s)) = run 3 (.kv k Node.null) := by
        show runStep (run 3) (.node (.str s)) = _
        simp only [runStep, h]
      rw [hL]
      rw [show run 9 (.node (.obj [(k, Node.null)])) = run 8 (.kv k Node.null) from rfl]
      show runStep (run 2) (.kv k Node.null) = runStep (run 7) (.kv k Node.null)
      exact runStep_kv_congr (run 2) (run 7) k Node.null (fun _ => rfl) rfl
    | some t =>
      rw [processElement_run (.str s) 4 (by simp [nodeFuel]),
        processElement_run (.obj [(k, Node.str t)]) 9 (by simp [nodeFuel])]
      have hL : run 4 (.node (.str s)) = run 3 (.kv k (Node.str t)) := by
        show runStep (run 3) (.node (.str s)) = _
        simp only [runStep, h]
      rw [hL]
      rw [show run 9 (.node (.obj [(k, Node.str t)])) = run 8 (.kv k (Node.str t)) from rfl]
      show runStep (run 2) (.kv k (Node.str t)) = runStep (run 7) (.kv k (Node.str t))
      exact runStep_kv_congr (run 2) (run 7) k (Node.str t) (fun _ => rfl) rfl
  · intro s h
    rw [processElement_run (.str s) 4 (by simp [nodeFuel])]
    show runStep (run 3) (.node (.str s)) = _
    simp only [runStep, h]
  · have h1 : processElement (.str "h1: \"Hello World\"") = .ok "<h1>Hello World</h1>" :=
      processElement_eval _ 4 _ rfl (by simp) (nodeFuel_ge _)
    show convGo [.str "h1: \"Hello World\""] = _
    simp only [convGo, h1]
    rfl
  · have h1 : processElement (.str "br:") = .ok "<br>" :=
      processElement_eval _ 4 _ rfl (by simp) (nodeFuel_ge _)
    show convGo [.str "br:"] = _
    simp only [convGo, h1]
    rfl

/-- Witness for C7: each priority rule exercised at a concrete string —
trailing colon, competing quote patterns (the single-quote one earlier),
a double-quote-only pattern, a colon-space match, a `//`-suppressed match,
and the two rendering links. -/
theorem claim7_witness :
    normalizeString "br:" = .decl "br" none ∧
    normalizeString "a: 'x' b: \"y\"" = .decl "a" (some "'x' b: \"y\"") ∧
    normalizeString "h1: \"Hello World\"" = .decl "h1" (some "Hello World") ∧
    normalizeString "p: some text" = .decl "p" (some "some text") ∧
    normalizeString "a href=//cdn.com/x: text" = .plain ∧
    processElement (.str "br:") = processElement (.obj [("br", Node.null)]) ∧
    processElement (.str "plain text") = .ok (escapeHtml "plain text") := by
  refine ⟨?_, ?_, ?_, ?_, ?_, ?_, ?_⟩
  · exact (claim7_normalizer_priority.1 "br:" (by decide)).trans (by decide)
  · exact (claim7_normalizer_priority.2.1 "a: 'x' b: \"y\"" 8 1 (by decide) (by decide)
      (by decide)).trans (by decide)
  · exact (claim7_normalizer_priority.2.2.1 "h1: \"Hello World\"" 2 (by decide) (by decide)
      (by decide)).trans (by decide)
  · exact (claim7_normalizer_priority.2.2.2.2.1 "p: some text" "p" "some text" (by decide)
      (by decide) (by decide) (by decide)).trans (by decide)
  · exact (claim7_normalizer_priority.2.2.2.2.1 "a href=//cdn.com/x: text"
      "a href=//cdn.com/x" "text" (by decide) (by decide) (by decide)
      (by decide)).trans (by decide)
  · exact claim7_normalizer_priority.2.2.2.2.2.2.1 "br:" "br" none (by decide)
  · exact claim7_normalizer_priority.2.2.2.2.2.2.2.1 "plain text" (by decide)

end Yahtml
